import Mathlib

/-!
# dops: column functions and table-format parsing

A shallow embedding of `impl/columns.go` and `cli/options.go`.

* A Go `string` is a sequence of bytes, so `len`, indexing and slicing count bytes.
* A Go run-time failure (slice or index out of range) is an `Except.error`.
* A Go `map` is a list of entries with pairwise distinct keys; the order in which a
  `range` loop visits the entries is not fixed by the language, so every loop over a
  map takes the visiting order as data.
* Functions of the packages `langext`, `term`, `docker` and of the Go `time` package
  are not part of the two files; they are collected as fields of `Ext`.
-/

namespace Dops

/-! ## Go values -/

/-- A Go string: an immutable sequence of bytes. -/
abbrev GoString := List UInt8

/-- The bytes of a string literal of the source (Go source text is UTF-8). -/
def utf8 (s : String) : GoString := s.data.flatMap String.utf8EncodeChar

/-- Run-time failures of the Go code that the embedding tracks. -/
inductive GoPanic where
  | sliceBounds
  | indexRange
  deriving DecidableEq, Repr

/-- Result of a Go call that may fail at run time. -/
abbrev Res (α : Type) := Except GoPanic α

instance instDecEqRes {α : Type} [DecidableEq α] : DecidableEq (Res α)
  | .ok a, .ok b => if h : a = b then isTrue (by rw [h]) else isFalse (by intro e; cases e; exact h rfl)
  | .error a, .error b => if h : a = b then isTrue (by rw [h]) else isFalse (by intro e; cases e; exact h rfl)
  | .ok _, .error _ => isFalse (by intro e; cases e)
  | .error _, .ok _ => isFalse (by intro e; cases e)

/-- Go `s[lo:]`. -/
def sliceFrom (s : GoString) (lo : Nat) : Res GoString :=
  if lo ≤ s.length then .ok (s.drop lo) else .error .sliceBounds

/-- Go `s[:hi]`. -/
def sliceTo (s : GoString) (hi : Nat) : Res GoString :=
  if hi ≤ s.length then .ok (s.take hi) else .error .sliceBounds

/-- Go `s[lo:hi]`. -/
def slice (s : GoString) (lo hi : Nat) : Res GoString :=
  if lo ≤ hi ∧ hi ≤ s.length then .ok ((s.take hi).drop lo) else .error .sliceBounds

/-- Go `a[i]`. -/
def index {α : Type} (a : List α) (i : Nat) : Res α :=
  match a[i]? with
  | some x => .ok x
  | none => .error .indexRange

/-! ## The parts of the Go standard library that the code calls -/

namespace strings

/-- Scan of `strings.Split`: `skip` bytes of a separator just matched are still to be
passed over, `cur` is the piece collected so far. -/
def splitAux (sep : GoString) : GoString → Nat → GoString → List GoString
  | [], _, cur => [cur]
  | _ :: rest, skip + 1, cur => splitAux sep rest skip cur
  | c :: rest, 0, cur =>
    if sep.isPrefixOf (c :: rest) then cur :: splitAux sep rest (sep.length - 1) []
    else splitAux sep rest 0 (cur ++ [c])

/-- Go `strings.Split(s, sep)` for a non-empty separator: the pieces of `s` between
successive leftmost, non-overlapping occurrences of `sep`. -/
def Split (s sep : GoString) : List GoString := splitAux sep s 0 []

/-- Scan of `strings.ReplaceAll`. -/
def replaceAux (old new : GoString) : GoString → Nat → GoString
  | [], _ => []
  | _ :: rest, skip + 1 => replaceAux old new rest skip
  | c :: rest, 0 =>
    if old.isPrefixOf (c :: rest) then new ++ replaceAux old new rest (old.length - 1)
    else c :: replaceAux old new rest 0

/-- Go `strings.ReplaceAll(s, old, new)` for a non-empty `old`: every leftmost,
non-overlapping occurrence of `old` in `s` is replaced by `new`. -/
def ReplaceAll (s old new : GoString) : GoString := replaceAux old new s 0

/-- Go `strings.Join(elems, sep)`. -/
def Join (elems : List GoString) (sep : GoString) : GoString := List.intercalate sep elems

/-- Upper-casing of one ASCII byte. -/
def upperByte (c : UInt8) : UInt8 := if 97 ≤ c ∧ c ≤ 122 then c - 32 else c

/-- Go `strings.ToUpper(s)`: byte-wise on an all-ASCII string; any other string goes
through the Unicode mapping, which is taken as `unicodeUpper`. -/
def ToUpper (unicodeUpper : GoString → GoString) (s : GoString) : GoString :=
  if s.all (fun c => c < 128) then s.map upperByte else unicodeUpper s

end strings

namespace strconv

/-- Go `strconv.Itoa(n)`: the decimal digits of `n`, with a leading `-` when negative. -/
def Itoa (n : Int) : GoString := utf8 (toString n)

end strconv

/-! ## Code outside the two files -/

/-- A Go `*time.Location`; the embedding only passes it on. -/
structure Location where
  name : GoString
  deriving DecidableEq, Repr

/-- Go `map[string]V`: the entries, with pairwise distinct keys. -/
abbrev GoMap (V : Type) := List (GoString × V)

/-- Go `m[k] = v`. -/
def GoMap.set {V : Type} : GoMap V → GoString → V → GoMap V
  | [], k, v => [(k, v)]
  | (k0, v0) :: rest, k, v =>
    if k0 = k then (k0, v) :: rest else (k0, v0) :: GoMap.set rest k v

/-- The functions that `columns.go` and `options.go` call and that live in other
packages (`langext`, `langext/term`, `docker`, `time`, `unicode`). -/
structure Ext where
  /-- The function `docker.SplitDockerImage`: registry, repository and tag. -/
  SplitDockerImage : GoString → GoString × GoString × GoString
  /-- The function `langext.FormatNaturalDurationEnglish`, on a duration in nanoseconds. -/
  FormatNaturalDurationEnglish : Int → GoString
  /-- The function `langext.FormatBytes`. -/
  FormatBytes : Int → GoString
  /-- The function `langext.StrPadLeft(str, pad, len)`. -/
  StrPadLeft : GoString → GoString → Int → GoString
  /-- The function `langext.StrPadRight(str, pad, len)`. -/
  StrPadRight : GoString → GoString → Int → GoString
  /-- The function `langext.MapKeyArr` on a `map[string]bool`. -/
  MapKeyArr : GoMap Bool → List GoString
  /-- The function `term.Yellow`. -/
  Yellow : GoString → GoString
  /-- The function `term.Green`. -/
  Green : GoString → GoString
  /-- The function `term.Red`. -/
  Red : GoString → GoString
  /-- The function `term.SupportsColors`. -/
  SupportsColors : Bool
  /-- The value `time.Local`. -/
  Local : Location
  /-- The expression `time.Now().Sub(time.Unix(sec, 0))`, in nanoseconds. -/
  SinceUnix : Int → Int
  /-- The expression `time.Unix(sec, 0).In(loc).Format(layout)`. -/
  FormatUnix : Int → Location → GoString → GoString
  /-- The Unicode path of `strings.ToUpper`. -/
  UnicodeUpper : GoString → GoString

/-! ## `cli/options.go` -/

structure Options where
  Version : Bool
  Help : Bool
  Socket : GoString
  Quiet : Bool
  Verbose : Bool
  OutputColor : Bool
  TimeZone : Location
  TimeFormat : GoString
  TimeFormatHeader : GoString
  Input : Option GoString
  All : Bool
  WithSize : Bool
  Filter : Option (GoMap GoString)
  Limit : Int
  DefaultFormat : Bool
  Format : List GoString
  PrintHeader : Bool
  PrintHeaderLines : Bool
  Truncate : Bool
  deriving DecidableEq

def DefaultCLIOptions (E : Ext) : Options :=
  { Version := false
    Help := false
    Quiet := false
    Verbose := false
    OutputColor := E.SupportsColors
    TimeZone := E.Local
    TimeFormatHeader := utf8 "Z07:00 MST"
    TimeFormat := utf8 "2006-01-02 15:04:05"
    Socket := utf8 "/var/run/docker.sock"
    Input := none
    All := false
    WithSize := false
    Filter := none
    Limit := -1
    DefaultFormat := true
    Format := [
      utf8 "table \x7b\x7b.ID\x7d\x7d\\t\x7b\x7b.Names\x7d\x7d\\t\x7b\x7b.Tag\x7d\x7d\\t\x7b\x7b.ShortCommand\x7d\x7d\\t\x7b\x7b.CreatedAt\x7d\x7d\\t\x7b\x7b.State\x7d\x7d\\t\x7b\x7b.Status\x7d\x7d\\t\x7b\x7b.Ports\x7d\x7d\\t\x7b\x7b.Networks\x7d\x7d\\t\x7b\x7b.IP\x7d\x7d",
      utf8 "table \x7b\x7b.ID\x7d\x7d\\t\x7b\x7b.Names\x7d\x7d\\t\x7b\x7b.Tag\x7d\x7d\\t\x7b\x7b.ShortCommand\x7d\x7d\\t\x7b\x7b.CreatedAt\x7d\x7d\\t\x7b\x7b.State\x7d\x7d\\t\x7b\x7b.Status\x7d\x7d\\t\x7b\x7b.Ports\x7d\x7d\\t\x7b\x7b.IP\x7d\x7d",
      utf8 "table \x7b\x7b.ID\x7d\x7d\\t\x7b\x7b.Names\x7d\x7d\\t\x7b\x7b.Tag\x7d\x7d\\t\x7b\x7b.CreatedAt\x7d\x7d\\t\x7b\x7b.State\x7d\x7d\\t\x7b\x7b.Status\x7d\x7d\\t\x7b\x7b.Ports\x7d\x7d\\t\x7b\x7b.IP\x7d\x7d",
      utf8 "table \x7b\x7b.ID\x7d\x7d\\t\x7b\x7b.Names\x7d\x7d\\t\x7b\x7b.Tag\x7d\x7d\\t\x7b\x7b.CreatedAt\x7d\x7d\\t\x7b\x7b.State\x7d\x7d\\t\x7b\x7b.Status\x7d\x7d\\t\x7b\x7b.Ports\x7d\x7d",
      utf8 "table \x7b\x7b.ID\x7d\x7d\\t\x7b\x7b.Names\x7d\x7d\\t\x7b\x7b.Tag\x7d\x7d\\t\x7b\x7b.State\x7d\x7d\\t\x7b\x7b.Status\x7d\x7d\\t\x7b\x7b.Ports\x7d\x7d",
      utf8 "table \x7b\x7b.ID\x7d\x7d\\t\x7b\x7b.Names\x7d\x7d\\t\x7b\x7b.Tag\x7d\x7d\\t\x7b\x7b.State\x7d\x7d\\t\x7b\x7b.Status\x7d\x7d",
      utf8 "table \x7b\x7b.ID\x7d\x7d\\t\x7b\x7b.Names\x7d\x7d\\t\x7b\x7b.State\x7d\x7d\\t\x7b\x7b.Status\x7d\x7d",
      utf8 "table \x7b\x7b.ID\x7d\x7d\\t\x7b\x7b.Names\x7d\x7d\\t\x7b\x7b.State\x7d\x7d",
      utf8 "table \x7b\x7b.Names\x7d\x7d\\t\x7b\x7b.State\x7d\x7d",
      utf8 "table \x7b\x7b.Names\x7d\x7d",
      utf8 "table \x7b\x7b.ID\x7d\x7d" ]
    PrintHeader := true
    PrintHeaderLines := true
    Truncate := true }

/-- The type `cli.PSContext`, of which the column functions read the field `Opt`. -/
structure PSContext where
  Opt : Options
  deriving DecidableEq

/-! ## The record type of package `docker` -/

/-- One entry of `ContainerSchema.Ports`. -/
structure PortSchema where
  PublicPort : Int
  PrivatePort : Int
  Typ : GoString
  deriving DecidableEq, Repr

/-- One entry of `ContainerSchema.Mounts`. -/
structure MountSchema where
  Source : GoString
  Destination : GoString
  RW : Bool
  deriving DecidableEq, Repr

/-- One value of `ContainerSchema.NetworkSettings.Networks`. -/
structure NetworkSchema where
  IPAddress : GoString
  deriving DecidableEq, Repr

structure NetworkSettingsSchema where
  Networks : GoMap NetworkSchema
  deriving DecidableEq, Repr

/-- The type `docker.ContainerState`, a named string type. -/
abbrev ContainerState := GoString

/-- Modelled from the spec: the six lifecycle states of `docker.ContainerState`
(created, running, restarting, exited, paused, dead), whose constants are declared in
package `docker`. -/
def StateCreated : ContainerState := utf8 "created"

/-- Modelled from the spec: the constant `docker.StateRunning`. -/
def StateRunning : ContainerState := utf8 "running"

/-- Modelled from the spec: the constant `docker.StateRestarting`. -/
def StateRestarting : ContainerState := utf8 "restarting"

/-- Modelled from the spec: the constant `docker.StateExited`. -/
def StateExited : ContainerState := utf8 "exited"

/-- Modelled from the spec: the constant `docker.StatePaused`. -/
def StatePaused : ContainerState := utf8 "paused"

/-- Modelled from the spec: the constant `docker.StateDead`. -/
def StateDead : ContainerState := utf8 "dead"

/-- The fields of `docker.ContainerSchema` that `columns.go` reads. The two maps are
listed in the order in which the call at hand visits them. -/
structure ContainerSchema where
  ID : GoString
  Names : List GoString
  Image : GoString
  Command : GoString
  Created : Int
  Ports : List PortSchema
  SizeRw : Int
  SizeRootFs : Int
  Labels : GoMap GoString
  State : ContainerState
  Status : GoString
  NetworkSettings : NetworkSettingsSchema
  Mounts : List MountSchema
  deriving DecidableEq, Repr

/-- The type `printer.ColFun`; the record is `none` for the header row. -/
abbrev ColFun := PSContext → Option ContainerSchema → Res (List GoString)

/-! ## `impl/columns.go` -/

def stateColor (E : Ext) (state : ContainerState) (value : GoString) : GoString :=
  if state = StateCreated then E.Yellow value
  else if state = StateRunning then E.Green value
  else if state = StateRestarting then E.Yellow value
  else if state = StateExited then E.Red value
  else if state = StatePaused then E.Yellow value
  else if state = StateDead then E.Red value
  else value

def ColContainerID (_E : Ext) (ctx : PSContext) (cont : Option ContainerSchema) :
    Res (List GoString) :=
  match cont with
  | none => .ok [utf8 "CONTAINER ID"]
  | some cont =>
    if ctx.Opt.Truncate then do
      let id ← slice cont.ID 0 12
      pure [id]
    else
      .ok [cont.ID]

def ColFullImage (_E : Ext) (_ctx : PSContext) (cont : Option ContainerSchema) :
    Res (List GoString) :=
  match cont with
  | none => .ok [utf8 "IMAGE"]
  | some cont => .ok [cont.Image]

def ColRegistry (E : Ext) (_ctx : PSContext) (cont : Option ContainerSchema) :
    Res (List GoString) :=
  match cont with
  | none => .ok [utf8 "REGISTRY"]
  | some cont => .ok [(E.SplitDockerImage cont.Image).1]

def ColImage (E : Ext) (_ctx : PSContext) (cont : Option ContainerSchema) :
    Res (List GoString) :=
  match cont with
  | none => .ok [utf8 "IMAGE"]
  | some cont => .ok [(E.SplitDockerImage cont.Image).2.1]

def ColImageTag (E : Ext) (_ctx : PSContext) (cont : Option ContainerSchema) :
    Res (List GoString) :=
  match cont with
  | none => .ok [utf8 "TAG"]
  | some cont => .ok [(E.SplitDockerImage cont.Image).2.2]

def ColCommand (_E : Ext) (ctx : PSContext) (cont : Option ContainerSchema) :
    Res (List GoString) :=
  match cont with
  | none => .ok [utf8 "COMMAND"]
  | some cont => do
    let cmd := cont.Command
    let cmd ←
      if ctx.Opt.Truncate ∧ cmd.length > 20 then do
        let head ← sliceTo cmd 19
        pure (head ++ utf8 "…")
      else pure cmd
    let cmd := utf8 "\"" ++ cmd ++ utf8 "\""
    pure [cmd]

def ColShortCommand (_E : Ext) (_ctx : PSContext) (cont : Option ContainerSchema) :
    Res (List GoString) :=
  match cont with
  | none => .ok [utf8 "COMMAND"]
  | some cont =>
    let spl := strings.Split cont.Command (utf8 " ")
    if spl.length = 0 then
      .ok [utf8 ""]
    else do
      let first ← index spl 0
      pure [first]

def ColRunningFor (E : Ext) (_ctx : PSContext) (cont : Option ContainerSchema) :
    Res (List GoString) :=
  match cont with
  | none => .ok [utf8 "CREATED"]
  | some cont =>
    let diff := E.SinceUnix cont.Created
    .ok [E.FormatNaturalDurationEnglish diff]

def ColCreatedAt (E : Ext) (ctx : PSContext) (cont : Option ContainerSchema) :
    Res (List GoString) :=
  match cont with
  | none => .ok [utf8 "CREATED AT"]
  | some cont => .ok [E.FormatUnix cont.Created ctx.Opt.TimeZone ctx.Opt.TimeFormat]

def ColState (E : Ext) (ctx : PSContext) (cont : Option ContainerSchema) :
    Res (List GoString) :=
  match cont with
  | none => .ok [utf8 "STATE"]
  | some cont =>
    let strstate := utf8 "[" ++ strings.ToUpper E.UnicodeUpper cont.State ++ utf8 "]"
    if !ctx.Opt.OutputColor then
      .ok [strstate]
    else
      .ok [stateColor E cont.State strstate]

def ColStatus (E : Ext) (ctx : PSContext) (cont : Option ContainerSchema) :
    Res (List GoString) :=
  match cont with
  | none => .ok [utf8 "STATUS"]
  | some cont =>
    if !ctx.Opt.OutputColor then
      .ok [cont.Status]
    else
      .ok [stateColor E cont.State cont.Status]

/-- The body of the loop of `ColPorts`: one port mapping is entered in the set `r`. -/
def ColPorts.step (E : Ext) (r : GoMap Bool) (port : PortSchema) : GoMap Bool :=
  let p1 := E.StrPadLeft (strconv.Itoa port.PublicPort) (utf8 " ") 5
  let p2 := E.StrPadLeft (strconv.Itoa port.PrivatePort) (utf8 " ") 5
  if port.PublicPort = 0 then
    r.set (utf8 "         " ++ p2 ++ utf8 " / " ++ port.Typ) true
  else
    r.set (p1 ++ utf8 " -> " ++ p2 ++ utf8 " / " ++ port.Typ) true

def ColPorts (E : Ext) (_ctx : PSContext) (cont : Option ContainerSchema) :
    Res (List GoString) :=
  match cont with
  | none => .ok [utf8 "PORTS"]
  | some cont =>
    let r := cont.Ports.foldl (ColPorts.step E) []
    .ok (E.MapKeyArr r)

/-- The body of the loop of `ColName`. -/
def ColName.step (n : GoString) : Res GoString :=
  if n.length > 0 then do
    let c ← index n 0
    if c = 47 then sliceFrom n 1 else pure n
  else pure n

/-- The loop of `ColName` over the names still to visit, `r` being the slice built so far. -/
def ColName.loop : List GoString → List GoString → Res (List GoString)
  | [], r => .ok r
  | n :: rest, r => do
    let n ← ColName.step n
    ColName.loop rest (r ++ [n])

def ColName (_E : Ext) (_ctx : PSContext) (cont : Option ContainerSchema) :
    Res (List GoString) :=
  match cont with
  | none => .ok [utf8 "NAME"]
  | some cont => ColName.loop cont.Names []

def ColSize (E : Ext) (_ctx : PSContext) (cont : Option ContainerSchema) :
    Res (List GoString) :=
  match cont with
  | none => .ok [utf8 "SIZE"]
  | some cont =>
    if cont.SizeRw = 0 ∧ cont.SizeRootFs = 0 then
      .ok []
    else
      .ok [E.StrPadRight (E.FormatBytes cont.SizeRw) (utf8 " ") 11 ++ utf8 " (virt "
        ++ E.FormatBytes cont.SizeRootFs ++ utf8 ")"]

/-- The body of the loop of `ColMounts`. -/
def ColMounts.step (r : List GoString) (mnt : MountSchema) : List GoString :=
  let val := mnt.Source ++ utf8 " -> " ++ mnt.Destination
  let val := if !mnt.RW then val ++ utf8 " [ro]" else val
  r ++ [val]

def ColMounts (_E : Ext) (_ctx : PSContext) (cont : Option ContainerSchema) :
    Res (List GoString) :=
  match cont with
  | none => .ok [utf8 "MOUNTS"]
  | some cont => .ok (cont.Mounts.foldl ColMounts.step [])

/-- The body of the loop of `ColIP`. -/
def ColIP.step (r : List GoString) (kv : GoString × NetworkSchema) : List GoString :=
  if kv.2.IPAddress ≠ utf8 "" then r ++ [kv.2.IPAddress] else r

def ColIP (_E : Ext) (_ctx : PSContext) (cont : Option ContainerSchema) :
    Res (List GoString) :=
  match cont with
  | none => .ok [utf8 "IP"]
  | some cont => .ok (cont.NetworkSettings.Networks.foldl ColIP.step [])

def ColLabels (_E : Ext) (_ctx : PSContext) (cont : Option ContainerSchema) :
    Res (List GoString) :=
  match cont with
  | none => .ok [utf8 "LABELS"]
  | some cont => .ok (cont.Labels.foldl (fun r kv => r ++ [kv.1 ++ utf8 " := " ++ kv.2]) [])

def ColLabelKeys (_E : Ext) (_ctx : PSContext) (cont : Option ContainerSchema) :
    Res (List GoString) :=
  match cont with
  | none => .ok [utf8 "LABELS"]
  | some cont => .ok (cont.Labels.foldl (fun r kv => r ++ [kv.1]) [])

def ColNetworks (_E : Ext) (_ctx : PSContext) (cont : Option ContainerSchema) :
    Res (List GoString) :=
  match cont with
  | none => .ok [utf8 "NETWORKS"]
  | some cont => .ok (cont.NetworkSettings.Networks.foldl (fun r kv => r ++ [kv.1]) [])

def ColPlaintext (str : GoString) : ColFun :=
  fun _ctx _cont => .ok [str]

/-- The entries of the map `ColumnMap`, in the order of the source text. -/
def ColumnMap (E : Ext) : List (GoString × ColFun) :=
  [ (utf8 "ID", ColContainerID E),
    (utf8 "Image", ColFullImage E),
    (utf8 "ImageName", ColImage E),
    (utf8 "ImageTag", ColImageTag E),
    (utf8 "Registry", ColRegistry E),
    (utf8 "ImageRegistry", ColRegistry E),
    (utf8 "Tag", ColImageTag E),
    (utf8 "Command", ColCommand E),
    (utf8 "ShortCommand", ColShortCommand E),
    (utf8 "CreatedAt", ColCreatedAt E),
    (utf8 "RunningFor", ColRunningFor E),
    (utf8 "Ports", ColPorts E),
    (utf8 "State", ColState E),
    (utf8 "Status", ColStatus E),
    (utf8 "Size", ColSize E),
    (utf8 "Names", ColName E),
    (utf8 "Labels", ColLabels E),
    (utf8 "LabelKeys", ColLabelKeys E),
    (utf8 "Mounts", ColMounts E),
    (utf8 "Networks", ColNetworks E),
    (utf8 "IP", ColIP E) ]

/-- The key of the loops over `ColumnMap`: the placeholder of a column name. -/
def placeholder (k : GoString) : GoString := utf8 "\x7b\x7b." ++ k ++ utf8 "\x7d\x7d"

/-- The function `getColFun`; `order` lists the entries of `ColumnMap` in the order in
which the loop visits them. -/
def getColFun (order : List (GoString × ColFun)) (colkey : GoString) : Option ColFun :=
  match order with
  | [] => none
  | (k, v) :: rest =>
    if placeholder k = colkey then some v else getColFun rest colkey

/-- The function `replaceSingleLineColumnData`; `order` lists the entries of
`ColumnMap` in the order in which the loop visits them. -/
def replaceSingleLineColumnData (order : List (GoString × ColFun)) (ctx : PSContext)
    (data : ContainerSchema) (format : GoString) : Res GoString :=
  order.foldlM
    (fun r kv => do
      let cells ← kv.2 ctx (some data)
      pure (strings.ReplaceAll r (placeholder kv.1) (strings.Join cells (utf8 " "))))
    format

/-- The loop of `parseTableDef` over the tokens, appending to `columns1`. Each call of
`getColFun` runs its own loop over `ColumnMap`: `order i` is the visiting order of the
call made for the token at position `i`, which is the call made when `columns1` holds
`i` columns. -/
def parseTableDef.loop (order : Nat → List (GoString × ColFun)) :
    List GoString → List ColFun → List ColFun
  | [], columns1 => columns1
  | v :: rest, columns1 =>
    match getColFun (order columns1.length) v with
    | some cf => parseTableDef.loop order rest (columns1 ++ [cf])
    | none => parseTableDef.loop order rest (columns1 ++ [ColPlaintext v])

/-- The function `parseTableDef`. -/
def parseTableDef (order : Nat → List (GoString × ColFun)) (fmt : GoString) :
    Res (List ColFun) := do
  let rest ← sliceFrom fmt 6
  let split := strings.Split rest (utf8 "\\t")
  pure (parseTableDef.loop order split [])

/-! ## An instance of the outside code, for evaluation on concrete inputs -/

/-- Modelled from the spec: `langext.StrPadLeft`, which pads the decimal number with
spaces on the left up to the given width (the spec's example cell is
` 8080 ->    80 / tcp`); the pad string is repeated and cut to the missing width. -/
def StrPadLeft (str pad : GoString) (len : Int) : GoString :=
  let missing := len.toNat - str.length
  ((List.replicate missing pad).flatten).take missing ++ str

/-- Modelled from the spec: `langext.StrPadRight`, padding on the right up to the
given width. -/
def StrPadRight (str pad : GoString) (len : Int) : GoString :=
  let missing := len.toNat - str.length
  str ++ ((List.replicate missing pad).flatten).take missing

/-- Modelled from the spec: `langext.MapKeyArr`, the keys of the map, each once; they
are listed here in the order of insertion. -/
def MapKeyArr (m : GoMap Bool) : List GoString := m.map Prod.fst

/-- An instance of `Ext`. Padding, key listing and the colour wrappers follow the spec;
image splitting, byte and duration formatting, the clock and the time layout are not
evaluated by any statement below and are given the simplest values of their types. -/
def sampleExt : Ext :=
  { SplitDockerImage := fun img => ([], img, utf8 "latest")
    FormatNaturalDurationEnglish := fun d => strconv.Itoa d
    FormatBytes := fun n => strconv.Itoa n
    StrPadLeft := StrPadLeft
    StrPadRight := StrPadRight
    MapKeyArr := MapKeyArr
    Yellow := fun v => utf8 "\x1b[33m" ++ v ++ utf8 "\x1b[0m"
    Green := fun v => utf8 "\x1b[32m" ++ v ++ utf8 "\x1b[0m"
    Red := fun v => utf8 "\x1b[31m" ++ v ++ utf8 "\x1b[0m"
    SupportsColors := false
    Local := { name := utf8 "Local" }
    SinceUnix := fun sec => 0 - sec * 1000000000
    FormatUnix := fun sec _ _ => strconv.Itoa sec
    UnicodeUpper := fun s => s }

/-- A render context with the default options. -/
def sampleCtx : PSContext := { Opt := DefaultCLIOptions sampleExt }

/-- The record of the spec's worked example. -/
def sampleRecord : ContainerSchema :=
  { ID := utf8 "abcdef0123456789"
    Names := [utf8 "/web"]
    Image := utf8 "nginx"
    Command := utf8 "nginx -g daemon off;"
    Created := 0
    Ports := [{ PublicPort := 8080, PrivatePort := 80, Typ := utf8 "tcp" }]
    SizeRw := 0
    SizeRootFs := 0
    Labels := []
    State := utf8 "running"
    Status := utf8 "Up 2 hours"
    NetworkSettings := { Networks := [] }
    Mounts := [] }

/-- The zero-valued record: every field holds the zero value of its Go type. -/
def zeroRecord : ContainerSchema :=
  { ID := utf8 ""
    Names := []
    Image := utf8 ""
    Command := utf8 ""
    Created := 0
    Ports := []
    SizeRw := 0
    SizeRootFs := 0
    Labels := []
    State := utf8 ""
    Status := utf8 ""
    NetworkSettings := { Networks := [] }
    Mounts := [] }

/-- A record whose command line is `echo {{.Status}}`. -/
def echoRecord : ContainerSchema :=
  { sampleRecord with Command := utf8 "echo \x7b\x7b.Status\x7d\x7d" }

/-- A record with three port mappings, two of which are the same mapping (one per
address family of the host) and one of which has no public port. -/
def portsRecord : ContainerSchema :=
  { sampleRecord with
    Ports := [ { PublicPort := 8080, PrivatePort := 80, Typ := utf8 "tcp" },
               { PublicPort := 8080, PrivatePort := 80, Typ := utf8 "tcp" },
               { PublicPort := 0, PrivatePort := 443, Typ := utf8 "tcp" } ] }

/-- A record attached to two networks, of which only the first has an IP address. -/
def netsRecord : ContainerSchema :=
  { sampleRecord with
    NetworkSettings :=
      { Networks := [ (utf8 "bridge", { IPAddress := utf8 "172.17.0.2" }),
                      (utf8 "host", { IPAddress := utf8 "" }) ] } }

/-! ## Reading the statements -/

/-- The number of positions of `s` at which `sep` occurs. -/
def occurrences (sep : GoString) : GoString → Nat
  | [] => 0
  | c :: rest => (if sep.isPrefixOf (c :: rest) then 1 else 0) + occurrences sep rest

/-- The decimal number padded to width 5 by the padding helper. -/
def pad5 (E : Ext) (n : Int) : GoString := E.StrPadLeft (strconv.Itoa n) (utf8 " ") 5

/-- The rendering of one port mapping: `PUBLIC -> PRIVATE / TYPE` when a public port is
bound (non-zero), 9 blanks followed by `PRIVATE / TYPE` when none is. -/
def renderPort (E : Ext) (p : PortSchema) : GoString :=
  if p.PublicPort ≠ 0 then
    pad5 E p.PublicPort ++ utf8 " -> " ++ pad5 E p.PrivatePort ++ utf8 " / " ++ p.Typ
  else
    List.replicate 9 32 ++ pad5 E p.PrivatePort ++ utf8 " / " ++ p.Typ

/-- A name with a single leading `/` removed when it has one, unchanged otherwise. -/
def stripSlash (n : GoString) : GoString :=
  match n with
  | 47 :: rest => rest
  | _ => n

/-- The rendering of one mount: `SOURCE -> DESTINATION`, followed by ` [ro]` when the
mount is not writable. -/
def renderMount (mnt : MountSchema) : GoString :=
  mnt.Source ++ utf8 " -> " ++ mnt.Destination ++ (if mnt.RW = false then utf8 " [ro]" else [])

/-- The number of characters of a UTF-8 encoded string: its bytes that are not
continuation bytes (`10xxxxxx`, the values 128 to 191). -/
def runeCount (s : GoString) : Nat := (s.filter (fun b => b < 128 || 192 ≤ b)).length

/-- The column that `parseTableDef` builds for one token. -/
def resolveToken (order : List (GoString × ColFun)) (tok : GoString) : ColFun :=
  match getColFun order tok with
  | some cf => cf
  | none => ColPlaintext tok

/-! ## Lemmas on the string functions -/

theorem splitAux_ne_nil (sep s : GoString) (skip : Nat) (cur : GoString) :
    strings.splitAux sep s skip cur ≠ [] := by
  induction s generalizing skip cur with
  | nil => simp [strings.splitAux]
  | cons c rest ih =>
    cases skip with
    | succ k => simpa [strings.splitAux] using ih k cur
    | zero =>
      unfold strings.splitAux
      split
      · simp
      · exact ih 0 _

theorem split_ne_nil (s sep : GoString) : strings.Split s sep ≠ [] :=
  splitAux_ne_nil sep s 0 []

theorem splitAux_two_length (a b : UInt8) (hab : a ≠ b) (n : Nat) :
    ∀ (s : GoString), s.length ≤ n → ∀ cur : GoString,
      (strings.splitAux [a, b] s 0 cur).length = occurrences [a, b] s + 1 := by
  induction n with
  | zero =>
    intro s hs cur
    have : s = [] := List.length_eq_zero.mp (Nat.le_zero.mp hs)
    subst this
    simp [strings.splitAux, occurrences]
  | succ n ih =>
    intro s hs cur
    cases s with
    | nil => simp [strings.splitAux, occurrences]
    | cons c rest =>
      have hrest : rest.length ≤ n := by simpa using hs
      unfold strings.splitAux occurrences
      by_cases hp : List.isPrefixOf [a, b] (c :: rest) = true
      · rw [if_pos hp, if_pos hp]
        cases rest with
        | nil => simp [List.isPrefixOf] at hp
        | cons d rest2 =>
          have hd : d = b := by
            simp [List.isPrefixOf] at hp
            exact hp.2.symm
          have hnp : List.isPrefixOf [a, b] (d :: rest2) = false := by
            cases rest2 with
            | nil => simp [List.isPrefixOf]
            | cons e rest3 =>
              simp [List.isPrefixOf, hd]
              intro h
              exact absurd h hab
          have h2 : rest2.length ≤ n := by
            simp at hrest
            omega
          have key := ih rest2 h2 []
          simp only [List.length_cons, List.length_nil, Nat.zero_add, Nat.reduceAdd,
            Nat.add_one_sub_one]
          unfold strings.splitAux occurrences
          rw [hnp]
          simp only [Bool.false_eq_true, if_false, Nat.zero_add]
          rw [key]
          omega
      · rw [if_neg hp, if_neg hp]
        rw [ih rest hrest]
        omega

theorem split_tab_length (s : GoString) :
    (strings.Split s (utf8 "\\t")).length = occurrences (utf8 "\\t") s + 1 := by
  have h : utf8 "\\t" = [92, 116] := by decide
  rw [h]
  exact splitAux_two_length 92 116 (by decide) s.length s (Nat.le_refl _) []

theorem splitAux_one_head (b : UInt8) (s cur : GoString) :
    ∃ tail, strings.splitAux [b] s 0 cur = (cur ++ s.takeWhile (fun c => c != b)) :: tail := by
  induction s generalizing cur with
  | nil => exact ⟨[], by simp [strings.splitAux]⟩
  | cons c rest ih =>
    unfold strings.splitAux
    by_cases hc : c = b
    · subst hc
      refine ⟨strings.splitAux [c] rest ([c].length - 1) [], ?_⟩
      simp [List.isPrefixOf, List.takeWhile]
    · have hne : (b == c) = false := by
        simp only [beq_eq_false_iff_ne, ne_eq]
        exact fun h => hc h.symm
      obtain ⟨tail, ht⟩ := ih (cur ++ [c])
      refine ⟨tail, ?_⟩
      have hcb : (c != b) = true := by simp [hc]
      simp only [List.isPrefixOf, hne, Bool.false_and, Bool.false_eq_true, if_false, ht,
        List.takeWhile, hcb, List.append_assoc, List.singleton_append]

theorem split_space_head (s : GoString) :
    ∃ tail, strings.Split s (utf8 " ") = s.takeWhile (fun c => c != 32) :: tail := by
  have h : utf8 " " = [32] := by decide
  rw [h]
  obtain ⟨tail, ht⟩ := splitAux_one_head 32 s []
  exact ⟨tail, by simpa [strings.Split] using ht⟩

/-! ## Lemmas on the lookup in `ColumnMap` -/

theorem placeholder_injective {k1 k2 : GoString} (h : placeholder k1 = placeholder k2) :
    k1 = k2 := by
  unfold placeholder at h
  rw [List.append_assoc, List.append_assoc] at h
  exact List.append_cancel_right (List.append_cancel_left h)

theorem getColFun_eq_some_mem {order : List (GoString × ColFun)} {s : GoString} {f : ColFun}
    (h : getColFun order s = some f) : ∃ k, (k, f) ∈ order ∧ placeholder k = s := by
  induction order with
  | nil => simp [getColFun] at h
  | cons kv rest ih =>
    obtain ⟨k, v⟩ := kv
    unfold getColFun at h
    by_cases hk : placeholder k = s
    · rw [if_pos hk] at h
      cases h
      exact ⟨k, List.mem_cons_self _ _, hk⟩
    · rw [if_neg hk] at h
      obtain ⟨k2, hm, hp⟩ := ih h
      exact ⟨k2, List.mem_cons_of_mem _ hm, hp⟩

theorem getColFun_eq_none_iff {order : List (GoString × ColFun)} {s : GoString} :
    getColFun order s = none ↔ ∀ k f, (k, f) ∈ order → placeholder k ≠ s := by
  induction order with
  | nil => simp [getColFun]
  | cons kv rest ih =>
    obtain ⟨k, v⟩ := kv
    unfold getColFun
    by_cases hk : placeholder k = s
    · rw [if_pos hk]
      simp only [reduceCtorEq, false_iff]
      intro hall
      exact hall k v (List.mem_cons_self _ _) hk
    · rw [if_neg hk, ih]
      constructor
      · intro hall k2 f2 hm
        rcases List.mem_cons.mp hm with heq | hm2
        · cases heq
          exact hk
        · exact hall k2 f2 hm2
      · intro hall k2 f2 hm
        exact hall k2 f2 (List.mem_cons_of_mem _ hm)

theorem getColFun_of_mem {order : List (GoString × ColFun)}
    (hnodup : (order.map Prod.fst).Nodup) {k : GoString} {f : ColFun}
    (hmem : (k, f) ∈ order) : getColFun order (placeholder k) = some f := by
  induction order with
  | nil => simp at hmem
  | cons kv rest ih =>
    obtain ⟨k0, v0⟩ := kv
    simp only [List.map_cons, List.nodup_cons] at hnodup
    unfold getColFun
    rcases List.mem_cons.mp hmem with heq | hm
    · cases heq
      simp
    · have hne : k0 ≠ k := by
        intro h
        apply hnodup.1
        rw [h]
        exact List.mem_map_of_mem Prod.fst hm
      have : placeholder k0 ≠ placeholder k := fun h => hne (placeholder_injective h)
      rw [if_neg this]
      exact ih hnodup.2 hm

theorem columnMap_keys (E : Ext) :
    (ColumnMap E).map Prod.fst =
      [utf8 "ID", utf8 "Image", utf8 "ImageName", utf8 "ImageTag", utf8 "Registry",
       utf8 "ImageRegistry", utf8 "Tag", utf8 "Command", utf8 "ShortCommand",
       utf8 "CreatedAt", utf8 "RunningFor", utf8 "Ports", utf8 "State", utf8 "Status",
       utf8 "Size", utf8 "Names", utf8 "Labels", utf8 "LabelKeys", utf8 "Mounts",
       utf8 "Networks", utf8 "IP"] := rfl

theorem columnMap_keys_nodup (E : Ext) : ((ColumnMap E).map Prod.fst).Nodup := by
  rw [columnMap_keys]
  decide

theorem perm_keys_nodup {E : Ext} {order : List (GoString × ColFun)}
    (h : order.Perm (ColumnMap E)) : (order.map Prod.fst).Nodup :=
  ((h.map Prod.fst).nodup_iff).mpr (columnMap_keys_nodup E)

theorem getColFun_perm {E : Ext} {order : List (GoString × ColFun)}
    (horder : order.Perm (ColumnMap E)) (s : GoString) :
    getColFun order s = getColFun (ColumnMap E) s := by
  cases hc : getColFun (ColumnMap E) s with
  | none =>
    rw [getColFun_eq_none_iff] at hc ⊢
    intro k f hmem
    exact hc k f (horder.mem_iff.mp hmem)
  | some f =>
    obtain ⟨k, hmem, hk⟩ := getColFun_eq_some_mem hc
    subst hk
    exact getColFun_of_mem (perm_keys_nodup horder) (horder.mem_iff.mpr hmem)

theorem getColFun_none_of_keys {E : Ext} {order : List (GoString × ColFun)}
    (horder : order.Perm (ColumnMap E)) (s : GoString)
    (h : ∀ k ∈ (ColumnMap E).map Prod.fst, placeholder k ≠ s) :
    getColFun order s = none := by
  rw [getColFun_eq_none_iff]
  intro k f hmem
  exact h k (List.mem_map_of_mem Prod.fst (horder.mem_iff.mp hmem))

/-! ## Lemmas on Go maps -/

theorem GoMap.keys_set {V : Type} (m : GoMap V) (k : GoString) (v : V) :
    (m.set k v).map Prod.fst =
      if k ∈ m.map Prod.fst then m.map Prod.fst else m.map Prod.fst ++ [k] := by
  induction m with
  | nil => simp [GoMap.set]
  | cons kv rest ih =>
    obtain ⟨k0, v0⟩ := kv
    unfold GoMap.set
    by_cases h : k0 = k
    · subst h
      simp
    · have hne : ¬ k = k0 := fun e => h e.symm
      rw [if_neg h]
      simp only [List.map_cons, ih, List.mem_cons, hne, false_or]
      split <;> simp

theorem GoMap.mem_keys_set {V : Type} (m : GoMap V) (k : GoString) (v : V) (x : GoString) :
    x ∈ (m.set k v).map Prod.fst ↔ x ∈ m.map Prod.fst ∨ x = k := by
  rw [GoMap.keys_set]
  split
  · constructor
    · exact fun h => Or.inl h
    · rintro (h | h)
      · exact h
      · subst h
        assumption
  · simp

theorem GoMap.nodup_keys_set {V : Type} (m : GoMap V) (k : GoString) (v : V)
    (h : (m.map Prod.fst).Nodup) : ((m.set k v).map Prod.fst).Nodup := by
  rw [GoMap.keys_set]
  split
  · exact h
  · rename_i hk
    rw [List.nodup_append]
    refine ⟨h, List.nodup_singleton _, ?_⟩
    intro a ha hb
    rw [List.mem_singleton] at hb
    subst hb
    exact hk ha

theorem ColPorts_step_eq (E : Ext) (r : GoMap Bool) (port : PortSchema) :
    ColPorts.step E r port = r.set (renderPort E port) true := by
  unfold ColPorts.step renderPort pad5
  have h9 : utf8 "         " = List.replicate 9 32 := by decide
  by_cases h : port.PublicPort = 0
  · simp [h, h9]
  · simp [h]

theorem ColPorts_fold_keys (E : Ext) (ports : List PortSchema) :
    ∀ acc : GoMap Bool, (acc.map Prod.fst).Nodup →
      ((ports.foldl (ColPorts.step E) acc).map Prod.fst).Nodup ∧
      ∀ x, x ∈ (ports.foldl (ColPorts.step E) acc).map Prod.fst ↔
        x ∈ acc.map Prod.fst ∨ ∃ p ∈ ports, x = renderPort E p := by
  induction ports with
  | nil =>
    intro acc hacc
    exact ⟨hacc, by simp⟩
  | cons p rest ih =>
    intro acc hacc
    rw [List.foldl_cons, ColPorts_step_eq]
    obtain ⟨h1, h2⟩ := ih (acc.set (renderPort E p) true) (GoMap.nodup_keys_set _ _ _ hacc)
    refine ⟨h1, ?_⟩
    intro x
    rw [h2, GoMap.mem_keys_set]
    constructor
    · rintro ((h | h) | ⟨q, hq, hx⟩)
      · exact Or.inl h
      · exact Or.inr ⟨p, List.mem_cons_self _ _, h⟩
      · exact Or.inr ⟨q, List.mem_cons_of_mem _ hq, hx⟩
    · rintro (h | ⟨q, hq, hx⟩)
      · exact Or.inl (Or.inl h)
      · rcases List.mem_cons.mp hq with he | hq2
        · subst he
          exact Or.inl (Or.inr hx)
        · exact Or.inr ⟨q, hq2, hx⟩

/-! ## Lemmas on `parseTableDef` -/

theorem parseTableDef_loop_spec (order : Nat → List (GoString × ColFun)) :
    ∀ (toks : List GoString) (acc : List ColFun),
      ∃ tail : List ColFun, parseTableDef.loop order toks acc = acc ++ tail ∧
        tail.length = toks.length ∧
        ∀ j tok, toks[j]? = some tok →
          tail[j]? = some (resolveToken (order (acc.length + j)) tok) := by
  intro toks
  induction toks with
  | nil =>
    intro acc
    exact ⟨[], by simp [parseTableDef.loop], rfl, by simp⟩
  | cons v rest ih =>
    intro acc
    obtain ⟨tail, h1, h2, h3⟩ := ih (acc ++ [resolveToken (order acc.length) v])
    refine ⟨resolveToken (order acc.length) v :: tail, ?_, by simp [h2], ?_⟩
    · have hstep : parseTableDef.loop order (v :: rest) acc =
          parseTableDef.loop order rest (acc ++ [resolveToken (order acc.length) v]) := by
        unfold resolveToken
        rw [parseTableDef.loop]
        cases getColFun (order acc.length) v <;> rfl
      rw [hstep, h1, List.append_assoc]
      rfl
    · intro j tok hj
      cases j with
      | zero =>
        simp only [List.getElem?_cons_zero, Option.some.injEq] at hj
        subst hj
        simp
      | succ j =>
        simp only [List.getElem?_cons_succ] at hj
        have := h3 j tok hj
        simp only [List.length_append, List.length_singleton] at this
        simp only [List.getElem?_cons_succ]
        rw [this, Nat.add_assoc, Nat.add_comm 1 j]

theorem resolveToken_of_mem {order : List (GoString × ColFun)}
    (hnodup : (order.map Prod.fst).Nodup) {k : GoString} {f : ColFun}
    (hmem : (k, f) ∈ order) : resolveToken order (placeholder k) = f := by
  unfold resolveToken
  rw [getColFun_of_mem hnodup hmem]

theorem resolveToken_of_not_mem {order : List (GoString × ColFun)} {tok : GoString}
    (h : ∀ k f, (k, f) ∈ order → placeholder k ≠ tok) :
    resolveToken order tok = ColPlaintext tok := by
  unfold resolveToken
  rw [getColFun_eq_none_iff.mpr h]

/-! ## The table-format parser -/

/-- C1: for every template that begins with the 6-byte prefix `table `, `parseTableDef`
returns one column per token of the remainder split on backslash-t, in token order; the
number of columns is the number of occurrences of backslash-t in the remainder plus
one and is never zero; the column of a token `{{.Name}}` with `Name` registered is the
function registered under `Name`, and the column of any other token returns the
one-element sequence holding the token, for the header and for every record and
context. This holds whatever order each lookup visits `ColumnMap` in. -/
theorem parseTableDef_table_columns (E : Ext) (order : Nat → List (GoString × ColFun))
    (horder : ∀ i, (order i).Perm (ColumnMap E)) (fmt rest : GoString)
    (hfmt : fmt = utf8 "table " ++ rest) :
    ∃ cols : List ColFun, parseTableDef order fmt = .ok cols ∧
      cols.length = (strings.Split rest (utf8 "\\t")).length ∧
      cols.length = occurrences (utf8 "\\t") rest + 1 ∧
      cols ≠ [] ∧
      ∀ (i : Nat) (tok : GoString), (strings.Split rest (utf8 "\\t"))[i]? = some tok →
        ∃ col, cols[i]? = some col ∧
          (∀ k f, (k, f) ∈ ColumnMap E → tok = placeholder k → col = f) ∧
          ((∀ k f, (k, f) ∈ ColumnMap E → tok ≠ placeholder k) →
            ∀ (ctx : PSContext) (cont : Option ContainerSchema), col ctx cont = .ok [tok]) := by
  obtain ⟨tail, h1, h2, h3⟩ := parseTableDef_loop_spec order (strings.Split rest (utf8 "\\t")) []
  have hlen : (utf8 "table ").length = 6 := by decide
  have hparse : parseTableDef order fmt = .ok tail := by
    subst hfmt
    unfold parseTableDef sliceFrom
    have hle : 6 ≤ (utf8 "table " ++ rest).length := by
      rw [List.length_append, hlen]
      omega
    rw [if_pos hle]
    have hdrop : List.drop 6 (utf8 "table " ++ rest) = rest := by
      rw [← hlen]
      exact List.drop_left _ _
    simp only [hdrop]
    show Except.ok (parseTableDef.loop order (strings.Split rest (utf8 "\\t")) []) = _
    rw [h1]
    rfl
  refine ⟨tail, hparse, h2, ?_, ?_, ?_⟩
  · rw [h2, split_tab_length]
  · intro hnil
    rw [hnil] at h2
    exact split_ne_nil rest (utf8 "\\t") (List.length_eq_zero.mp h2.symm)
  · intro i tok htok
    refine ⟨resolveToken (order i) tok, ?_, ?_, ?_⟩
    · have := h3 i tok htok
      simpa using this
    · intro k f hmem hk
      subst hk
      exact resolveToken_of_mem (perm_keys_nodup (horder i)) ((horder i).mem_iff.mpr hmem)
    · intro hno ctx cont
      have : resolveToken (order i) tok = ColPlaintext tok := by
        apply resolveToken_of_not_mem
        intro k f hmem heq
        exact hno k f ((horder i).mem_iff.mp hmem) heq.symm
      rw [this]
      rfl

/-- Witness of C1: the template `table {{.ID}}\tfoo`, each lookup visiting `ColumnMap`
in reverse source order. -/
theorem parseTableDef_table_columns_witness :
    (∀ i : Nat, ((fun _ => (ColumnMap sampleExt).reverse) i).Perm (ColumnMap sampleExt)) ∧
    utf8 "table \x7b\x7b.ID\x7d\x7d\\tfoo" = utf8 "table " ++ utf8 "\x7b\x7b.ID\x7d\x7d\\tfoo" ∧
    ∃ cols : List ColFun,
      parseTableDef (fun _ => (ColumnMap sampleExt).reverse)
        (utf8 "table \x7b\x7b.ID\x7d\x7d\\tfoo") = .ok cols ∧
      cols.length = (strings.Split (utf8 "\x7b\x7b.ID\x7d\x7d\\tfoo") (utf8 "\\t")).length ∧
      cols.length = occurrences (utf8 "\\t") (utf8 "\x7b\x7b.ID\x7d\x7d\\tfoo") + 1 ∧
      cols ≠ [] ∧
      ∀ (i : Nat) (tok : GoString), (strings.Split (utf8 "\x7b\x7b.ID\x7d\x7d\\tfoo") (utf8 "\\t"))[i]? = some tok →
        ∃ col, cols[i]? = some col ∧
          (∀ k f, (k, f) ∈ ColumnMap sampleExt → tok = placeholder k → col = f) ∧
          ((∀ k f, (k, f) ∈ ColumnMap sampleExt → tok ≠ placeholder k) →
            ∀ (ctx : PSContext) (cont : Option ContainerSchema), col ctx cont = .ok [tok]) :=
  ⟨fun _ => List.reverse_perm _, by decide,
    parseTableDef_table_columns sampleExt (fun _ => (ColumnMap sampleExt).reverse)
      (fun _ => List.reverse_perm _) _ _ (by decide)⟩

/-- C2: placeholder resolution is a case-sensitive exact match that does not depend on
the order in which the registry is visited. For every string `s` and every visiting
order, `getColFun` gives the same answer as in source order; it reports found exactly
when `s` is `{{.` + k + `}}` for a key `k` of `ColumnMap`, and then returns the function
registered under `k`; `{{.id}}`, `{{ .ID }}`, `{{.ID}} ` and `{{.Unknown}}` are not found. -/
theorem getColFun_exact_match (E : Ext) (order : List (GoString × ColFun))
    (horder : order.Perm (ColumnMap E)) (s : GoString) :
    getColFun order s = getColFun (ColumnMap E) s ∧
    ((getColFun order s).isSome ↔ ∃ k f, (k, f) ∈ ColumnMap E ∧ s = placeholder k) ∧
    (∀ k f, (k, f) ∈ ColumnMap E → s = placeholder k → getColFun order s = some f) ∧
    getColFun order (utf8 "\x7b\x7b.id\x7d\x7d") = none ∧
    getColFun order (utf8 "\x7b\x7b .ID \x7d\x7d") = none ∧
    getColFun order (utf8 "\x7b\x7b.ID\x7d\x7d ") = none ∧
    getColFun order (utf8 "\x7b\x7b.Unknown\x7d\x7d") = none := by
  refine ⟨getColFun_perm horder s, ?_, ?_, ?_, ?_, ?_, ?_⟩
  · constructor
    · intro h
      obtain ⟨f, hf⟩ := Option.isSome_iff_exists.mp h
      obtain ⟨k, hmem, hk⟩ := getColFun_eq_some_mem hf
      exact ⟨k, f, horder.mem_iff.mp hmem, hk.symm⟩
    · rintro ⟨k, f, hmem, hk⟩
      subst hk
      rw [getColFun_of_mem (perm_keys_nodup horder) (horder.mem_iff.mpr hmem)]
      rfl
  · intro k f hmem hk
    subst hk
    exact getColFun_of_mem (perm_keys_nodup horder) (horder.mem_iff.mpr hmem)
  · apply getColFun_none_of_keys horder
    rw [columnMap_keys]
    decide
  · apply getColFun_none_of_keys horder
    rw [columnMap_keys]
    decide
  · apply getColFun_none_of_keys horder
    rw [columnMap_keys]
    decide
  · apply getColFun_none_of_keys horder
    rw [columnMap_keys]
    decide

/-- Witness of C2: the string `{{.Names}}`, with `ColumnMap` visited in reverse source
order, is resolved to `ColName`. -/
theorem getColFun_exact_match_witness :
    (ColumnMap sampleExt).reverse.Perm (ColumnMap sampleExt) ∧
    getColFun (ColumnMap sampleExt).reverse (utf8 "\x7b\x7b.Names\x7d\x7d") =
      some (ColName sampleExt) :=
  ⟨List.reverse_perm _,
    (getColFun_exact_match sampleExt (ColumnMap sampleExt).reverse (List.reverse_perm _)
      (utf8 "\x7b\x7b.Names\x7d\x7d")).2.2.1 (utf8 "Names") (ColName sampleExt)
      (by simp [ColumnMap]) (by decide)⟩

/-! ## Header labels -/

/-- C3: for every column registered in `ColumnMap` and every render context, the
column function called with no record returns exactly one string, its fixed header
label: the registry maps each name to the label listed here. -/
theorem columnMap_header_labels (E : Ext) (ctx : PSContext) :
    (ColumnMap E).map (fun kv => (kv.1, kv.2 ctx none)) =
      [ (utf8 "ID", .ok [utf8 "CONTAINER ID"]),
        (utf8 "Image", .ok [utf8 "IMAGE"]),
        (utf8 "ImageName", .ok [utf8 "IMAGE"]),
        (utf8 "ImageTag", .ok [utf8 "TAG"]),
        (utf8 "Registry", .ok [utf8 "REGISTRY"]),
        (utf8 "ImageRegistry", .ok [utf8 "REGISTRY"]),
        (utf8 "Tag", .ok [utf8 "TAG"]),
        (utf8 "Command", .ok [utf8 "COMMAND"]),
        (utf8 "ShortCommand", .ok [utf8 "COMMAND"]),
        (utf8 "CreatedAt", .ok [utf8 "CREATED AT"]),
        (utf8 "RunningFor", .ok [utf8 "CREATED"]),
        (utf8 "Ports", .ok [utf8 "PORTS"]),
        (utf8 "State", .ok [utf8 "STATE"]),
        (utf8 "Status", .ok [utf8 "STATUS"]),
        (utf8 "Size", .ok [utf8 "SIZE"]),
        (utf8 "Names", .ok [utf8 "NAME"]),
        (utf8 "Labels", .ok [utf8 "LABELS"]),
        (utf8 "LabelKeys", .ok [utf8 "LABELS"]),
        (utf8 "Mounts", .ok [utf8 "MOUNTS"]),
        (utf8 "Networks", .ok [utf8 "NETWORKS"]),
        (utf8 "IP", .ok [utf8 "IP"]) ] := rfl

/-! ## Templates outside the table form -/

/-- C4, as stated, fails: on the 5-byte template `table` the slice `fmt[6:]` is out of
range, so `parseTableDef` aborts and returns no sequence of columns. -/
theorem parseTableDef_short_template_aborts :
    parseTableDef (fun _ => ColumnMap sampleExt) (utf8 "table") = .error .sliceBounds ∧
    ¬ ∃ cols : List ColFun,
      parseTableDef (fun _ => ColumnMap sampleExt) (utf8 "table") = .ok cols := by
  have h : parseTableDef (fun _ => ColumnMap sampleExt) (utf8 "table")
      = .error .sliceBounds := rfl
  refine ⟨h, ?_⟩
  rintro ⟨cols, hc⟩
  rw [h] at hc
  cases hc

/-- C4, amended: for every template of at least 6 bytes, so for every template with
the `table ` prefix, with known or unknown placeholders and whatever order the lookups
visit the registry in, `parseTableDef` returns a non-empty sequence of columns. -/
theorem parseTableDef_returns_of_six_bytes (order : Nat → List (GoString × ColFun))
    (fmt : GoString) (hlen : 6 ≤ fmt.length) :
    ∃ cols : List ColFun, parseTableDef order fmt = .ok cols ∧ cols ≠ [] := by
  obtain ⟨tail, h1, h2, _⟩ :=
    parseTableDef_loop_spec order (strings.Split (fmt.drop 6) (utf8 "\\t")) []
  refine ⟨tail, ?_, ?_⟩
  · unfold parseTableDef sliceFrom
    rw [if_pos hlen]
    show Except.ok (parseTableDef.loop order (strings.Split (fmt.drop 6) (utf8 "\\t")) []) = _
    rw [h1]
    rfl
  · intro hnil
    rw [hnil] at h2
    exact split_ne_nil _ _ (List.length_eq_zero.mp h2.symm)

/-- Witness of C4, amended: a template without the `table ` prefix and with an unknown
placeholder. -/
theorem parseTableDef_returns_of_six_bytes_witness :
    6 ≤ (utf8 "\x7b\x7b.Nope\x7d\x7d").length ∧
    ∃ cols : List ColFun,
      parseTableDef (fun _ => ColumnMap sampleExt) (utf8 "\x7b\x7b.Nope\x7d\x7d") = .ok cols ∧
      cols ≠ [] :=
  ⟨by decide, parseTableDef_returns_of_six_bytes (fun _ => ColumnMap sampleExt)
    (utf8 "\x7b\x7b.Nope\x7d\x7d") (by decide)⟩

/-! ## The Command and ID columns -/

theorem runeCount_of_ascii (s : GoString) (h : s.all (fun c => c < 128) = true) :
    runeCount s = s.length := by
  unfold runeCount
  rw [List.filter_eq_self.mpr]
  intro b hb
  have hlt := List.all_eq_true.mp h b hb
  simp only [decide_eq_true_eq] at hlt
  simp [hlt]

/-- C5, as stated, fails: the claim counts characters and the code counts bytes. With
truncation on, the command `0123456789abcdefghéé` has 20 characters (22 bytes) and is
not shown in full: the code keeps 19 bytes, which ends inside the first `é`, and appends
the ellipsis, which is not the first 19 characters followed by the ellipsis either. The
command `0123456789abcdefghééé` has 21 characters, and the shown command is not its
first 19 characters followed by the ellipsis: it holds the 18 ASCII characters, the lone
byte 195 and the ellipsis. -/
theorem ColCommand_cuts_by_bytes :
    (sampleCtx.Opt.Truncate = true ∧
      runeCount (utf8 "0123456789abcdefghéé") = 20 ∧
      ColCommand sampleExt sampleCtx
          (some { sampleRecord with Command := utf8 "0123456789abcdefghéé" })
        = .ok [utf8 "\"0123456789abcdefgh" ++ [195] ++ utf8 "…\""] ∧
      ColCommand sampleExt sampleCtx
          (some { sampleRecord with Command := utf8 "0123456789abcdefghéé" })
        ≠ .ok [utf8 "\"0123456789abcdefghéé\""] ∧
      ColCommand sampleExt sampleCtx
          (some { sampleRecord with Command := utf8 "0123456789abcdefghéé" })
        ≠ .ok [utf8 "\"0123456789abcdefghé…\""]) ∧
    (runeCount (utf8 "0123456789abcdefghééé") = 21 ∧
      ColCommand sampleExt sampleCtx
          (some { sampleRecord with Command := utf8 "0123456789abcdefghééé" })
        = .ok [utf8 "\"0123456789abcdefgh" ++ [195] ++ utf8 "…\""] ∧
      ColCommand sampleExt sampleCtx
          (some { sampleRecord with Command := utf8 "0123456789abcdefghééé" })
        ≠ .ok [utf8 "\"0123456789abcdefghé…\""]) := by
  decide

/-- C5, amended: truncation law of the Command column, with lengths counted in bytes
as Go's `len` and slicing count them. For every record `ColCommand` returns exactly one
cell: a double quote, the shown command, a double quote. With truncation on and a
command of more than 20 bytes the shown command is the first 19 bytes of the command
followed by the ellipsis glyph; with truncation off, or with at most 20 bytes, it is the
full command. For an ASCII command bytes are characters, so the 19 bytes kept are 19
visible characters. -/
theorem ColCommand_truncation_law (E : Ext) (ctx : PSContext) (cont : ContainerSchema) :
    ColCommand E ctx (some cont) =
      .ok [utf8 "\"" ++
        (if ctx.Opt.Truncate = true ∧ 20 < cont.Command.length
          then cont.Command.take 19 ++ utf8 "…" else cont.Command) ++ utf8 "\""] ∧
    (20 < cont.Command.length → (cont.Command.take 19).length = 19) ∧
    (cont.Command.all (fun c => c < 128) = true →
      runeCount cont.Command = cont.Command.length ∧
      (20 < cont.Command.length → runeCount (cont.Command.take 19) = 19)) := by
  have h19 : 20 < cont.Command.length → (cont.Command.take 19).length = 19 := by
    intro h
    rw [List.length_take]
    omega
  refine ⟨?_, h19, ?_⟩
  · unfold ColCommand
    by_cases h : ctx.Opt.Truncate = true ∧ 20 < cont.Command.length
    · have h19 : 19 ≤ cont.Command.length := by omega
      simp only [gt_iff_lt, h, and_self, if_true, sliceTo, h19]
      rfl
    · simp only [gt_iff_lt, h, if_false]
      rfl
  · intro hascii
    refine ⟨runeCount_of_ascii _ hascii, ?_⟩
    intro h
    have htake : (cont.Command.take 19).all (fun c => c < 128) = true := by
      rw [List.all_eq_true] at hascii ⊢
      intro b hb
      exact hascii b (List.mem_of_mem_take hb)
    rw [runeCount_of_ascii _ htake]
    exact h19 h

/-- C6: for every record whose identifier has at least 12 bytes `ColContainerID`
returns exactly one cell, the full identifier with truncation off and the first 12 bytes
of the identifier with truncation on; the truncated cell has length 12 and is a prefix
of the identifier. -/
theorem ColContainerID_of_twelve (E : Ext) (ctx : PSContext) (cont : ContainerSchema)
    (hlen : 12 ≤ cont.ID.length) :
    ColContainerID E ctx (some cont) =
      .ok [if ctx.Opt.Truncate = true then cont.ID.take 12 else cont.ID] ∧
    (cont.ID.take 12).length = 12 ∧
    cont.ID.take 12 <+: cont.ID := by
  refine ⟨?_, ?_, List.take_prefix _ _⟩
  · unfold ColContainerID
    by_cases h : ctx.Opt.Truncate = true
    · simp only [h, if_true, slice, Nat.zero_le, hlen, and_self, List.drop_zero]
      rfl
    · simp only [h, if_false]
      simp
  · rw [List.length_take]
    omega

/-- Witness of C6: the record of the worked example, with the default options
(truncation on). -/
theorem ColContainerID_of_twelve_witness :
    12 ≤ sampleRecord.ID.length ∧
    (ColContainerID sampleExt sampleCtx (some sampleRecord) =
      .ok [if sampleCtx.Opt.Truncate = true then sampleRecord.ID.take 12 else sampleRecord.ID] ∧
    (sampleRecord.ID.take 12).length = 12 ∧
    sampleRecord.ID.take 12 <+: sampleRecord.ID) :=
  ⟨by decide, ColContainerID_of_twelve sampleExt sampleCtx sampleRecord (by decide)⟩

/-- C7: the code departs from the claim. With truncation on (the default), on the
zero-valued record and on a record whose identifier is `abc`, the slice `cont.ID[0:12]`
is out of range and `ColContainerID` aborts instead of returning a sequence of strings. -/
theorem ColContainerID_short_id_aborts :
    sampleCtx.Opt.Truncate = true ∧
    ColContainerID sampleExt sampleCtx (some zeroRecord) = .error .sliceBounds ∧
    ColContainerID sampleExt sampleCtx (some { sampleRecord with ID := utf8 "abc" })
      = .error .sliceBounds := by
  decide

/-! ## The ShortCommand column -/

/-- C8, as stated, fails: the command ` sh -c x` gives the empty cell and the command
`sh<TAB>-c` gives the cell `sh<TAB>-c`; neither gives `sh`. -/
theorem ColShortCommand_not_whitespace_token :
    (ColShortCommand sampleExt sampleCtx (some { sampleRecord with Command := utf8 " sh -c x" })
        = .ok [utf8 ""] ∧
      ColShortCommand sampleExt sampleCtx (some { sampleRecord with Command := utf8 " sh -c x" })
        ≠ .ok [utf8 "sh"]) ∧
    (ColShortCommand sampleExt sampleCtx (some { sampleRecord with Command := utf8 "sh\t-c" })
        = .ok [utf8 "sh\t-c"] ∧
      ColShortCommand sampleExt sampleCtx (some { sampleRecord with Command := utf8 "sh\t-c" })
        ≠ .ok [utf8 "sh"]) := by
  decide

/-- C8, amended: for every record `ColShortCommand` returns exactly one cell, the text
of the command line before its first space byte (U+0020), which is the whole command
line when it holds no space; it is the empty string when the command is empty. -/
theorem ColShortCommand_before_first_space (E : Ext) (ctx : PSContext)
    (cont : ContainerSchema) :
    ColShortCommand E ctx (some cont) =
      .ok [cont.Command.takeWhile (fun c => c != 32)] ∧
    ColShortCommand E ctx (some { cont with Command := utf8 "" }) = .ok [utf8 ""] := by
  have key : ∀ c : ContainerSchema, ColShortCommand E ctx (some c) =
      .ok [c.Command.takeWhile (fun c => c != 32)] := by
    intro c
    obtain ⟨tail, ht⟩ := split_space_head c.Command
    unfold ColShortCommand
    simp only [ht, List.length_cons, Nat.add_one_ne_zero, if_false, index,
      List.getElem?_cons_zero]
    rfl
  exact ⟨key cont, by rw [key]; rfl⟩

/-! ## Single-line substitution -/

/-- C9: the code departs from the claim. For the format `{{.Command}}` and a record
whose command line is `echo {{.Status}}` and whose status is `Up 2 hours`, visiting
`ColumnMap` in source order (Command before Status) gives `"echo Up 2 hours"`, and
visiting it in the reverse order gives `"echo {{.Status}}"`: the result of
`replaceSingleLineColumnData` depends on the visiting order. -/
theorem replaceSingleLineColumnData_order_dependent :
    (ColumnMap sampleExt).reverse.Perm (ColumnMap sampleExt) ∧
    replaceSingleLineColumnData (ColumnMap sampleExt) sampleCtx echoRecord
        (utf8 "\x7b\x7b.Command\x7d\x7d")
      = .ok (utf8 "\"echo Up 2 hours\"") ∧
    replaceSingleLineColumnData (ColumnMap sampleExt).reverse sampleCtx echoRecord
        (utf8 "\x7b\x7b.Command\x7d\x7d")
      = .ok (utf8 "\"echo \x7b\x7b.Status\x7d\x7d\"") ∧
    replaceSingleLineColumnData (ColumnMap sampleExt) sampleCtx echoRecord
        (utf8 "\x7b\x7b.Command\x7d\x7d")
      ≠ replaceSingleLineColumnData (ColumnMap sampleExt).reverse sampleCtx echoRecord
        (utf8 "\x7b\x7b.Command\x7d\x7d") :=
  ⟨List.reverse_perm _, by decide, by decide, by decide⟩

/-! ## The Ports column -/

/-- C10: ports have set semantics. Whenever `langext.MapKeyArr` lists the keys of a
map, each once, in some order, for every record the sequence returned by `ColPorts` has
no duplicate string, its elements are exactly the renderings of the port mappings of the
record, it has at most as many cells as there are port mappings, and it is empty when
there are none. -/
theorem ColPorts_set_semantics (E : Ext)
    (hkeys : ∀ m : GoMap Bool, (m.map Prod.fst).Nodup → (E.MapKeyArr m).Perm (m.map Prod.fst))
    (ctx : PSContext) (cont : ContainerSchema) :
    ∃ cells : List GoString, ColPorts E ctx (some cont) = .ok cells ∧
      cells.Nodup ∧
      (∀ x, x ∈ cells ↔ ∃ p ∈ cont.Ports, x = renderPort E p) ∧
      cells.length ≤ cont.Ports.length ∧
      (cont.Ports = [] → cells = []) := by
  obtain ⟨hnd, hmem⟩ := ColPorts_fold_keys E cont.Ports [] (by simp)
  have hperm := hkeys (cont.Ports.foldl (ColPorts.step E) []) hnd
  have hcells : ∀ x, x ∈ E.MapKeyArr (cont.Ports.foldl (ColPorts.step E) []) ↔
      ∃ p ∈ cont.Ports, x = renderPort E p := by
    intro x
    rw [hperm.mem_iff, hmem]
    simp
  have hcnd : (E.MapKeyArr (cont.Ports.foldl (ColPorts.step E) [])).Nodup :=
    hperm.nodup_iff.mpr hnd
  refine ⟨E.MapKeyArr (cont.Ports.foldl (ColPorts.step E) []), rfl, hcnd, hcells, ?_, ?_⟩
  · have hsub : E.MapKeyArr (cont.Ports.foldl (ColPorts.step E) []) ⊆
        cont.Ports.map (renderPort E) := by
      intro x hx
      obtain ⟨p, hp, hxp⟩ := (hcells x).mp hx
      rw [hxp]
      exact List.mem_map_of_mem _ hp
    have := (List.subperm_of_subset hcnd hsub).length_le
    simpa using this
  · intro hnil
    apply List.eq_nil_iff_forall_not_mem.mpr
    intro x hx
    obtain ⟨p, hp, _⟩ := (hcells x).mp hx
    rw [hnil] at hp
    simp at hp

/-- Witness of C10: a record with a repeated port mapping and an unbound one, the keys
being listed in the order of insertion. -/
theorem ColPorts_set_semantics_witness :
    (∀ m : GoMap Bool, (m.map Prod.fst).Nodup →
      (sampleExt.MapKeyArr m).Perm (m.map Prod.fst)) ∧
    ColPorts sampleExt sampleCtx (some portsRecord) =
      .ok [utf8 " 8080 ->    80 / tcp", utf8 "           443 / tcp"] ∧
    ∃ cells : List GoString, ColPorts sampleExt sampleCtx (some portsRecord) = .ok cells ∧
      cells.Nodup ∧
      (∀ x, x ∈ cells ↔ ∃ p ∈ portsRecord.Ports, x = renderPort sampleExt p) ∧
      cells.length ≤ portsRecord.Ports.length ∧
      (portsRecord.Ports = [] → cells = []) :=
  ⟨fun _ _ => List.Perm.refl _, by decide,
    ColPorts_set_semantics sampleExt (fun _ _ => List.Perm.refl _) sampleCtx portsRecord⟩

/-! ## The State and Status columns -/

theorem ToUpper_of_ascii (up : GoString → GoString) (s : GoString)
    (h : s.all (fun c => c < 128) = true) :
    strings.ToUpper up s = s.map (fun b => if 97 ≤ b ∧ b ≤ 122 then b - 32 else b) := by
  unfold strings.ToUpper
  rw [if_pos h]
  rfl

/-- C11: for every record and every context with colour disabled `ColState` returns
exactly one cell, `[` followed by the upper-cased state name followed by `]`, to which
no colour wrapper is applied. For a state name in ASCII, as the six lifecycle states
are, the upper-cased name is the name with each of its letters `a` to `z` replaced by
the capital letter and every other byte kept; any other name is upper-cased by the
Unicode mapping. The state `running` gives `[RUNNING]`, and likewise for the other five
lifecycle states. -/
theorem ColState_without_color (E : Ext) (ctx : PSContext) (cont : ContainerSchema)
    (hcolor : ctx.Opt.OutputColor = false) :
    ColState E ctx (some cont) =
      .ok [utf8 "[" ++ strings.ToUpper E.UnicodeUpper cont.State ++ utf8 "]"] ∧
    ColState E ctx (some { cont with State := utf8 "running" }) = .ok [utf8 "[RUNNING]"] ∧
    (cont.State.all (fun c => c < 128) = true →
      ColState E ctx (some cont) =
        .ok [utf8 "[" ++
          cont.State.map (fun b => if 97 ≤ b ∧ b ≤ 122 then b - 32 else b) ++ utf8 "]"]) ∧
    (cont.State.all (fun c => c < 128) = false →
      ColState E ctx (some cont) = .ok [utf8 "[" ++ E.UnicodeUpper cont.State ++ utf8 "]"]) ∧
    ColState E ctx (some { cont with State := utf8 "created" }) = .ok [utf8 "[CREATED]"] ∧
    ColState E ctx (some { cont with State := utf8 "restarting" })
      = .ok [utf8 "[RESTARTING]"] ∧
    ColState E ctx (some { cont with State := utf8 "exited" }) = .ok [utf8 "[EXITED]"] ∧
    ColState E ctx (some { cont with State := utf8 "paused" }) = .ok [utf8 "[PAUSED]"] ∧
    ColState E ctx (some { cont with State := utf8 "dead" }) = .ok [utf8 "[DEAD]"] := by
  have hgen : ∀ c : ContainerSchema, ColState E ctx (some c) =
      .ok [utf8 "[" ++ strings.ToUpper E.UnicodeUpper c.State ++ utf8 "]"] := by
    intro c
    simp [ColState, hcolor]
  have hlit : ∀ (s cell : GoString), s.all (fun c => c < 128) = true →
      utf8 "[" ++ s.map (fun b => if 97 ≤ b ∧ b ≤ 122 then b - 32 else b) ++ utf8 "]" = cell →
      ColState E ctx (some { cont with State := s }) = .ok [cell] := by
    intro s cell hs hcell
    rw [hgen, ToUpper_of_ascii _ _ hs, hcell]
  refine ⟨hgen cont, hlit _ _ (by decide) (by decide), ?_, ?_, hlit _ _ (by decide) (by decide),
    hlit _ _ (by decide) (by decide), hlit _ _ (by decide) (by decide),
    hlit _ _ (by decide) (by decide), hlit _ _ (by decide) (by decide)⟩
  · intro hascii
    rw [hgen, ToUpper_of_ascii _ _ hascii]
  · intro hnon
    rw [hgen]
    unfold strings.ToUpper
    rw [hnon]
    rfl

/-- Witness of C11: the record of the worked example under the default options of a
terminal without colour support. -/
theorem ColState_without_color_witness :
    sampleCtx.Opt.OutputColor = false ∧
    sampleRecord.State.all (fun c => c < 128) = true ∧
    ColState sampleExt sampleCtx (some sampleRecord) = .ok [utf8 "[RUNNING]"] ∧
    (ColState sampleExt sampleCtx (some sampleRecord) =
      .ok [utf8 "[" ++ strings.ToUpper sampleExt.UnicodeUpper sampleRecord.State ++ utf8 "]"] ∧
    ColState sampleExt sampleCtx (some { sampleRecord with State := utf8 "running" })
      = .ok [utf8 "[RUNNING]"] ∧
    (sampleRecord.State.all (fun c => c < 128) = true →
      ColState sampleExt sampleCtx (some sampleRecord) =
        .ok [utf8 "[" ++
          sampleRecord.State.map (fun b => if 97 ≤ b ∧ b ≤ 122 then b - 32 else b)
          ++ utf8 "]"]) ∧
    (sampleRecord.State.all (fun c => c < 128) = false →
      ColState sampleExt sampleCtx (some sampleRecord)
        = .ok [utf8 "[" ++ sampleExt.UnicodeUpper sampleRecord.State ++ utf8 "]"]) ∧
    ColState sampleExt sampleCtx (some { sampleRecord with State := utf8 "created" })
      = .ok [utf8 "[CREATED]"] ∧
    ColState sampleExt sampleCtx (some { sampleRecord with State := utf8 "restarting" })
      = .ok [utf8 "[RESTARTING]"] ∧
    ColState sampleExt sampleCtx (some { sampleRecord with State := utf8 "exited" })
      = .ok [utf8 "[EXITED]"] ∧
    ColState sampleExt sampleCtx (some { sampleRecord with State := utf8 "paused" })
      = .ok [utf8 "[PAUSED]"] ∧
    ColState sampleExt sampleCtx (some { sampleRecord with State := utf8 "dead" })
      = .ok [utf8 "[DEAD]"]) :=
  ⟨by decide, by decide, by decide,
    ColState_without_color sampleExt sampleCtx sampleRecord (by decide)⟩

/-- C12: State and Status share one mapping from state to colour. `stateColor` wraps
the text in yellow for the states created, restarting and paused, in green for running,
in red for exited and dead, and returns it unchanged for any other state; with colour
enabled `ColState` returns `stateColor` of the state and the bracketed upper-cased state
and `ColStatus` returns `stateColor` of the state and the status; with colour disabled
`ColStatus` returns the status text unchanged. -/
theorem stateColor_shared_mapping (E : Ext) :
    (∀ v, stateColor E (utf8 "created") v = E.Yellow v) ∧
    (∀ v, stateColor E (utf8 "restarting") v = E.Yellow v) ∧
    (∀ v, stateColor E (utf8 "paused") v = E.Yellow v) ∧
    (∀ v, stateColor E (utf8 "running") v = E.Green v) ∧
    (∀ v, stateColor E (utf8 "exited") v = E.Red v) ∧
    (∀ v, stateColor E (utf8 "dead") v = E.Red v) ∧
    (∀ s v, s ≠ utf8 "created" → s ≠ utf8 "restarting" → s ≠ utf8 "paused" →
      s ≠ utf8 "running" → s ≠ utf8 "exited" → s ≠ utf8 "dead" → stateColor E s v = v) ∧
    (∀ (ctx : PSContext) (cont : ContainerSchema), ctx.Opt.OutputColor = true →
      ColState E ctx (some cont) = .ok [stateColor E cont.State
        (utf8 "[" ++ strings.ToUpper E.UnicodeUpper cont.State ++ utf8 "]")]) ∧
    (∀ (ctx : PSContext) (cont : ContainerSchema), ctx.Opt.OutputColor = true →
      ColStatus E ctx (some cont) = .ok [stateColor E cont.State cont.Status]) ∧
    (∀ (ctx : PSContext) (cont : ContainerSchema), ctx.Opt.OutputColor = false →
      ColStatus E ctx (some cont) = .ok [cont.Status]) := by
  refine ⟨fun v => ?_, fun v => ?_, fun v => ?_, fun v => ?_, fun v => ?_, fun v => ?_,
    ?_, ?_, ?_, ?_⟩
  · rfl
  · rfl
  · rfl
  · rfl
  · rfl
  · rfl
  · intro s v h1 h2 h3 h4 h5 h6
    unfold stateColor StateCreated StateRunning StateRestarting StateExited StatePaused
      StateDead
    rw [if_neg h1, if_neg h4, if_neg h2, if_neg h5, if_neg h3, if_neg h6]
  · intro ctx cont h
    simp [ColState, h]
  · intro ctx cont h
    simp [ColStatus, h]
  · intro ctx cont h
    simp [ColStatus, h]

/-! ## The Names, Size, Mounts, IP and Networks columns -/

theorem stripSlash_cons_of_ne (c : UInt8) (rest : GoString) (hc : c ≠ 47) :
    stripSlash (c :: rest) = c :: rest := by
  unfold stripSlash
  split
  · rename_i heq
    cases heq
    exact absurd rfl hc
  · rfl

theorem ColName_step_eq (n : GoString) : ColName.step n = .ok (stripSlash n) := by
  cases n with
  | nil => rfl
  | cons c rest =>
    have hstep : ColName.step (c :: rest) =
        (if c = 47 then sliceFrom (c :: rest) 1 else pure (c :: rest)) := by
      simp only [ColName.step, index, List.length_cons, gt_iff_lt, Nat.zero_lt_succ, if_true,
        List.getElem?_cons_zero]
      rfl
    rw [hstep]
    by_cases hc : c = 47
    · subst hc
      simp [sliceFrom, stripSlash]
    · rw [if_neg hc, stripSlash_cons_of_ne c rest hc]
      rfl

theorem ColName_loop_eq (names r : List GoString) :
    ColName.loop names r = .ok (r ++ names.map stripSlash) := by
  induction names generalizing r with
  | nil => simp [ColName.loop]
  | cons n rest ih =>
    unfold ColName.loop
    rw [ColName_step_eq]
    show ColName.loop rest (r ++ [stripSlash n]) = _
    rw [ih]
    simp

theorem ColMounts_fold_eq (mounts : List MountSchema) (r : List GoString) :
    mounts.foldl ColMounts.step r = r ++ mounts.map renderMount := by
  induction mounts generalizing r with
  | nil => simp
  | cons m rest ih =>
    rw [List.foldl_cons, ih]
    have hstep : ColMounts.step r m = r ++ [renderMount m] := by
      unfold ColMounts.step renderMount
      cases m.RW <;> simp
    rw [hstep]
    simp

theorem ColIP_fold_eq (nets : GoMap NetworkSchema) (r : List GoString) :
    nets.foldl ColIP.step r =
      r ++ (nets.map (fun kv => kv.2.IPAddress)).filter (fun ip => ip ≠ utf8 "") := by
  induction nets generalizing r with
  | nil => simp
  | cons kv rest ih =>
    rw [List.foldl_cons, ih]
    unfold ColIP.step
    by_cases h : kv.2.IPAddress = utf8 ""
    · simp [h]
    · simp [h]

theorem ColNetworks_fold_eq (nets : GoMap NetworkSchema) (r : List GoString) :
    nets.foldl (fun r kv => r ++ [kv.1]) r = r ++ nets.map Prod.fst := by
  induction nets generalizing r with
  | nil => simp
  | cons kv rest ih =>
    rw [List.foldl_cons, ih]
    simp

/-- C13: for every record `ColName` returns one cell per name, in the order of the
record, each being the name with a single leading `/` removed when it has one and
unchanged otherwise; `//a` gives `/a`, the empty name stays empty, and there are as many
cells as names. -/
theorem ColName_strips_single_slash (E : Ext) (ctx : PSContext) (cont : ContainerSchema) :
    ColName E ctx (some cont) = .ok (cont.Names.map stripSlash) ∧
    (cont.Names.map stripSlash).length = cont.Names.length ∧
    (∀ rest : GoString, stripSlash (utf8 "/" ++ rest) = rest) ∧
    (∀ n : GoString, n.head? ≠ some 47 → stripSlash n = n) ∧
    stripSlash (utf8 "//a") = utf8 "/a" ∧
    stripSlash (utf8 "") = utf8 "" := by
  refine ⟨?_, by simp, ?_, ?_, by decide, by decide⟩
  · show ColName.loop cont.Names [] = _
    rw [ColName_loop_eq]
    simp
  · intro rest
    have h : utf8 "/" = [47] := by decide
    rw [h]
    rfl
  · intro n hn
    cases n with
    | nil => rfl
    | cons c rest =>
      have hc : c ≠ 47 := by
        intro h
        apply hn
        rw [h]
        rfl
      exact stripSlash_cons_of_ne c rest hc

/-- C14: for every record `ColSize` returns the empty sequence if and only if both the
writable-layer size and the total size are zero, and otherwise exactly one string; a
record with both sizes zero contributes no cell. -/
theorem ColSize_empty_iff_both_zero (E : Ext) (ctx : PSContext) (cont : ContainerSchema) :
    ∃ cells : List GoString, ColSize E ctx (some cont) = .ok cells ∧
      (cells = [] ↔ cont.SizeRw = 0 ∧ cont.SizeRootFs = 0) ∧
      (¬ (cont.SizeRw = 0 ∧ cont.SizeRootFs = 0) → cells.length = 1) ∧
      ColSize E ctx (some { cont with SizeRw := 0, SizeRootFs := 0 }) = .ok [] := by
  by_cases h : cont.SizeRw = 0 ∧ cont.SizeRootFs = 0
  · refine ⟨[], ?_, ?_, ?_, ?_⟩
    · simp [ColSize, h]
    · simp [h]
    · intro hn
      exact absurd h hn
    · simp [ColSize]
  · refine ⟨[E.StrPadRight (E.FormatBytes cont.SizeRw) (utf8 " ") 11 ++ utf8 " (virt "
        ++ E.FormatBytes cont.SizeRootFs ++ utf8 ")"], ?_, ?_, ?_, ?_⟩
    · unfold ColSize
      simp only [h, if_false]
    · simp [h]
    · intro _
      rfl
    · simp [ColSize]

/-- C15: for every record `ColMounts` returns one cell per mount, in the order of the
record, the cell of a mount being its source, ` -> `, its destination, followed by
` [ro]` exactly when the mount is not writable; a record with no mounts yields the empty
sequence. -/
theorem ColMounts_one_cell_per_mount (E : Ext) (ctx : PSContext) (cont : ContainerSchema) :
    ColMounts E ctx (some cont) = .ok (cont.Mounts.map renderMount) ∧
    (cont.Mounts.map renderMount).length = cont.Mounts.length ∧
    (∀ src dst : GoString, renderMount { Source := src, Destination := dst, RW := true } =
      src ++ utf8 " -> " ++ dst) ∧
    (∀ src dst : GoString, renderMount { Source := src, Destination := dst, RW := false } =
      src ++ utf8 " -> " ++ dst ++ utf8 " [ro]") ∧
    ColMounts E ctx (some { cont with Mounts := [] }) = .ok [] := by
  refine ⟨?_, by simp, ?_, ?_, ?_⟩
  · show Except.ok (cont.Mounts.foldl ColMounts.step []) = _
    rw [ColMounts_fold_eq]
    simp
  · intro src dst
    simp [renderMount]
  · intro src dst
    simp [renderMount]
  · rfl

/-- C16: for every record and whatever order the two loops visit the attached networks
in, `ColIP` returns, up to order, exactly the IP addresses of the networks whose IP
address is non-empty, one cell per such network, so that no cell is the empty string;
`ColNetworks` returns, up to order, exactly the network names; and there are at most as
many IP cells as Networks cells. -/
theorem ColIP_ColNetworks_cells (E : Ext) (ctx : PSContext) (cont : ContainerSchema)
    (visitIP visitNet : GoMap NetworkSchema)
    (hIP : visitIP.Perm cont.NetworkSettings.Networks)
    (hNet : visitNet.Perm cont.NetworkSettings.Networks) :
    ∃ ips names : List GoString,
      ColIP E ctx (some { cont with NetworkSettings := { Networks := visitIP } }) = .ok ips ∧
      ColNetworks E ctx (some { cont with NetworkSettings := { Networks := visitNet } })
        = .ok names ∧
      ips.Perm ((cont.NetworkSettings.Networks.map (fun kv => kv.2.IPAddress)).filter
        (fun ip => ip ≠ utf8 "")) ∧
      (∀ ip ∈ ips, ip ≠ utf8 "") ∧
      names.Perm (cont.NetworkSettings.Networks.map Prod.fst) ∧
      ips.length ≤ names.length := by
  have hips : ((visitIP.map (fun kv => kv.2.IPAddress)).filter (fun ip => ip ≠ utf8 "")).Perm
      ((cont.NetworkSettings.Networks.map (fun kv => kv.2.IPAddress)).filter
        (fun ip => ip ≠ utf8 "")) := (hIP.map _).filter _
  have hnames : (visitNet.map Prod.fst).Perm (cont.NetworkSettings.Networks.map Prod.fst) :=
    hNet.map _
  refine ⟨(visitIP.map (fun kv => kv.2.IPAddress)).filter (fun ip => ip ≠ utf8 ""),
    visitNet.map Prod.fst, ?_, ?_, hips, ?_, hnames, ?_⟩
  · show Except.ok (visitIP.foldl ColIP.step []) = _
    rw [ColIP_fold_eq]
    simp
  · show Except.ok (visitNet.foldl (fun r kv => r ++ [kv.1]) []) = _
    rw [ColNetworks_fold_eq]
    simp
  · intro ip hip
    have := (List.mem_filter.mp hip).2
    simpa using this
  · rw [hips.length_eq, hnames.length_eq, List.length_map]
    calc ((cont.NetworkSettings.Networks.map (fun kv => kv.2.IPAddress)).filter
            (fun ip => ip ≠ utf8 "")).length
        ≤ (cont.NetworkSettings.Networks.map (fun kv => kv.2.IPAddress)).length :=
          List.length_filter_le _ _
      _ = cont.NetworkSettings.Networks.length := List.length_map _ _

/-- Witness of C16: a record attached to two networks, one without IP address, the
loop of `ColIP` visiting them in reverse order. -/
theorem ColIP_ColNetworks_cells_witness :
    netsRecord.NetworkSettings.Networks.reverse.Perm netsRecord.NetworkSettings.Networks ∧
    netsRecord.NetworkSettings.Networks.Perm netsRecord.NetworkSettings.Networks ∧
    ∃ ips names : List GoString,
      ColIP sampleExt sampleCtx (some { netsRecord with
        NetworkSettings := { Networks := netsRecord.NetworkSettings.Networks.reverse } })
        = .ok ips ∧
      ColNetworks sampleExt sampleCtx (some { netsRecord with
        NetworkSettings := { Networks := netsRecord.NetworkSettings.Networks } })
        = .ok names ∧
      ips.Perm ((netsRecord.NetworkSettings.Networks.map (fun kv => kv.2.IPAddress)).filter
        (fun ip => ip ≠ utf8 "")) ∧
      (∀ ip ∈ ips, ip ≠ utf8 "") ∧
      names.Perm (netsRecord.NetworkSettings.Networks.map Prod.fst) ∧
      ips.length ≤ names.length :=
  ⟨List.reverse_perm _, List.Perm.refl _,
    ColIP_ColNetworks_cells sampleExt sampleCtx netsRecord _ _
      (List.reverse_perm _) (List.Perm.refl _)⟩

/-! ## The worked example -/

theorem StrPadLeft_five (s : GoString) :
    StrPadLeft s (utf8 " ") 5 = List.replicate (5 - s.length) 32 ++ s := by
  have h : utf8 " " = [32] := by decide
  have hflat : ∀ n : Nat, (List.replicate n [(32 : UInt8)]).flatten = List.replicate n 32 := by
    intro n
    induction n with
    | zero => rfl
    | succ n ih => simp [List.replicate_succ, ih]
  unfold StrPadLeft
  simp only [h, hflat]
  have h5 : (5 : Int).toNat = 5 := rfl
  rw [h5, List.take_of_length_le (by simp)]

theorem parseTableDef_loop_cons_of_mem {E : Ext} {order : Nat → List (GoString × ColFun)}
    (horder : ∀ i, (order i).Perm (ColumnMap E)) {k : GoString} {f : ColFun}
    (hmem : (k, f) ∈ ColumnMap E) (rest : List GoString) (acc : List ColFun) :
    parseTableDef.loop order (placeholder k :: rest) acc =
      parseTableDef.loop order rest (acc ++ [f]) := by
  rw [parseTableDef.loop,
    getColFun_of_mem (perm_keys_nodup (horder acc.length)) ((horder acc.length).mem_iff.mpr hmem)]

/-- C17: the worked example of the spec. The template
`table {{.ID}}\t{{.Names}}\t{{.State}}\t{{.Ports}}` parses to the four columns ID, Names,
State, Ports in that order; their header cells are `CONTAINER ID`, `NAME`, `STATE`,
`PORTS`; and for a record with identifier `abcdef0123456789`, names `/web`, state
`running` and one port mapping (public 8080, private 80, type `tcp`), with truncation on
and colour off, their cells are `abcdef012345`, `web`, `[RUNNING]` and
` 8080 ->    80 / tcp`. The padding helper is taken to pad on the left with spaces up
to width 5 and the key listing to list the keys of the map, each once. -/
theorem worked_example_cells (E : Ext) (order : Nat → List (GoString × ColFun))
    (ctx : PSContext) (cont : ContainerSchema)
    (horder : ∀ i, (order i).Perm (ColumnMap E))
    (hpad : ∀ s : GoString, E.StrPadLeft s (utf8 " ") 5 = List.replicate (5 - s.length) 32 ++ s)
    (hkeys : ∀ m : GoMap Bool, (m.map Prod.fst).Nodup → (E.MapKeyArr m).Perm (m.map Prod.fst))
    (htrunc : ctx.Opt.Truncate = true) (hcolor : ctx.Opt.OutputColor = false)
    (hid : cont.ID = utf8 "abcdef0123456789") (hnames : cont.Names = [utf8 "/web"])
    (hstate : cont.State = utf8 "running")
    (hports : cont.Ports = [{ PublicPort := 8080, PrivatePort := 80, Typ := utf8 "tcp" }]) :
    parseTableDef order
        (utf8 "table \x7b\x7b.ID\x7d\x7d\\t\x7b\x7b.Names\x7d\x7d\\t\x7b\x7b.State\x7d\x7d\\t\x7b\x7b.Ports\x7d\x7d")
      = .ok [ColContainerID E, ColName E, ColState E, ColPorts E] ∧
    ColContainerID E ctx none = .ok [utf8 "CONTAINER ID"] ∧
    ColName E ctx none = .ok [utf8 "NAME"] ∧
    ColState E ctx none = .ok [utf8 "STATE"] ∧
    ColPorts E ctx none = .ok [utf8 "PORTS"] ∧
    ColContainerID E ctx (some cont) = .ok [utf8 "abcdef012345"] ∧
    ColName E ctx (some cont) = .ok [utf8 "web"] ∧
    ColState E ctx (some cont) = .ok [utf8 "[RUNNING]"] ∧
    ColPorts E ctx (some cont) = .ok [utf8 " 8080 ->    80 / tcp"] := by
  refine ⟨?_, rfl, rfl, rfl, rfl, ?_, ?_, ?_, ?_⟩
  · have htoks : strings.Split
        ((utf8 "table \x7b\x7b.ID\x7d\x7d\\t\x7b\x7b.Names\x7d\x7d\\t\x7b\x7b.State\x7d\x7d\\t\x7b\x7b.Ports\x7d\x7d").drop 6)
        (utf8 "\\t")
        = [placeholder (utf8 "ID"), placeholder (utf8 "Names"), placeholder (utf8 "State"),
           placeholder (utf8 "Ports")] := by decide
    have hlen : 6 ≤ (utf8 "table \x7b\x7b.ID\x7d\x7d\\t\x7b\x7b.Names\x7d\x7d\\t\x7b\x7b.State\x7d\x7d\\t\x7b\x7b.Ports\x7d\x7d").length := by
      decide
    unfold parseTableDef sliceFrom
    rw [if_pos hlen]
    show Except.ok (parseTableDef.loop order (strings.Split _ (utf8 "\\t")) []) = _
    rw [htoks,
      parseTableDef_loop_cons_of_mem horder (f := ColContainerID E) (by simp [ColumnMap]),
      parseTableDef_loop_cons_of_mem horder (f := ColName E) (by simp [ColumnMap]),
      parseTableDef_loop_cons_of_mem horder (f := ColState E) (by simp [ColumnMap]),
      parseTableDef_loop_cons_of_mem horder (f := ColPorts E) (by simp [ColumnMap])]
    rfl
  · have h12 : slice (utf8 "abcdef0123456789") 0 12 = .ok (utf8 "abcdef012345") := by decide
    simp only [ColContainerID, htrunc, if_true, hid, h12]
    rfl
  · show ColName.loop cont.Names [] = _
    rw [ColName_loop_eq, hnames]
    decide
  · have hup : strings.ToUpper E.UnicodeUpper (utf8 "running") = utf8 "RUNNING" := by
      have hascii : (utf8 "running").all (fun c => c < 128) = true := by decide
      unfold strings.ToUpper
      rw [if_pos hascii]
      decide
    have hcell : utf8 "[" ++ utf8 "RUNNING" ++ utf8 "]" = utf8 "[RUNNING]" := by decide
    simp [ColState, hcolor, hstate, hup, hcell]
  · have hcell : renderPort E { PublicPort := 8080, PrivatePort := 80, Typ := utf8 "tcp" }
        = utf8 " 8080 ->    80 / tcp" := by
      unfold renderPort pad5
      rw [hpad, hpad]
      decide
    have hfold : cont.Ports.foldl (ColPorts.step E) []
        = [(utf8 " 8080 ->    80 / tcp", true)] := by
      rw [hports, List.foldl_cons, List.foldl_nil, ColPorts_step_eq, hcell]
      rfl
    have hperm := hkeys [(utf8 " 8080 ->    80 / tcp", true)] (by simp)
    have hsingle : E.MapKeyArr [(utf8 " 8080 ->    80 / tcp", true)]
        = [utf8 " 8080 ->    80 / tcp"] := List.perm_singleton.mp hperm
    show Except.ok (E.MapKeyArr (cont.Ports.foldl (ColPorts.step E) [])) = _
    rw [hfold, hsingle]

/-- Witness of C17: the record of the worked example with the default options of a
terminal without colour support, every lookup visiting the registry in reverse order. -/
theorem worked_example_cells_witness :
    (∀ i : Nat, ((fun _ => (ColumnMap sampleExt).reverse) i).Perm (ColumnMap sampleExt)) ∧
    sampleCtx.Opt.Truncate = true ∧ sampleCtx.Opt.OutputColor = false ∧
    parseTableDef (fun _ => (ColumnMap sampleExt).reverse)
        (utf8 "table \x7b\x7b.ID\x7d\x7d\\t\x7b\x7b.Names\x7d\x7d\\t\x7b\x7b.State\x7d\x7d\\t\x7b\x7b.Ports\x7d\x7d")
      = .ok [ColContainerID sampleExt, ColName sampleExt, ColState sampleExt,
          ColPorts sampleExt] ∧
    ColContainerID sampleExt sampleCtx none = .ok [utf8 "CONTAINER ID"] ∧
    ColName sampleExt sampleCtx none = .ok [utf8 "NAME"] ∧
    ColState sampleExt sampleCtx none = .ok [utf8 "STATE"] ∧
    ColPorts sampleExt sampleCtx none = .ok [utf8 "PORTS"] ∧
    ColContainerID sampleExt sampleCtx (some sampleRecord) = .ok [utf8 "abcdef012345"] ∧
    ColName sampleExt sampleCtx (some sampleRecord) = .ok [utf8 "web"] ∧
    ColState sampleExt sampleCtx (some sampleRecord) = .ok [utf8 "[RUNNING]"] ∧
    ColPorts sampleExt sampleCtx (some sampleRecord) = .ok [utf8 " 8080 ->    80 / tcp"] :=
  ⟨fun _ => List.reverse_perm _, by decide, by decide,
    worked_example_cells sampleExt (fun _ => (ColumnMap sampleExt).reverse) sampleCtx
      sampleRecord (fun _ => List.reverse_perm _) StrPadLeft_five
      (fun _ _ => List.Perm.refl _) (by decide) (by decide) rfl rfl rfl rfl⟩

/-! ## The default fallback chain -/

theorem defaultFormats_eq (E : Ext) :
    (DefaultCLIOptions E).Format = (DefaultCLIOptions sampleExt).Format := rfl

theorem parseTableDef_column_count (order : Nat → List (GoString × ColFun)) (fmt : GoString) :
    (parseTableDef order fmt).toOption.map List.length =
      if 6 ≤ fmt.length then some (strings.Split (fmt.drop 6) (utf8 "\\t")).length
      else none := by
  obtain ⟨tail, h1, h2, _⟩ :=
    parseTableDef_loop_spec order (strings.Split (fmt.drop 6) (utf8 "\\t")) []
  unfold parseTableDef sliceFrom
  by_cases hlen : 6 ≤ fmt.length
  · rw [if_pos hlen, if_pos hlen]
    show (Except.ok (parseTableDef.loop order
      (strings.Split (fmt.drop 6) (utf8 "\\t")) [])).toOption.map List.length = _
    rw [h1]
    simp [Except.toOption, h2]
  · rw [if_neg hlen, if_neg hlen]
    rfl

set_option maxRecDepth 100000 in
theorem defaultFormats_token_counts :
    (DefaultCLIOptions sampleExt).Format.map
        (fun fmt => if 6 ≤ fmt.length
          then some (strings.Split (fmt.drop 6) (utf8 "\\t")).length else none)
      = [some 10, some 9, some 8, some 7, some 6, some 5, some 4, some 3, some 2, some 1,
         some 1] := by
  decide

/-- C18: the default fallback chain is well formed and ordered from most to least
detailed. `DefaultCLIOptions().Format` holds 11 templates; each begins with `table `;
every token of each (split on backslash-t) is the placeholder of a key of `ColumnMap`
and is resolved to the function registered under it, whatever order the lookup visits
the registry in, so none becomes literal text; and the numbers of parsed columns along
the list are 10, 9, 8, 7, 6, 5, 4, 3, 2, 1, 1, which is non-increasing. -/
theorem default_formats_well_formed (E : Ext) (order : Nat → List (GoString × ColFun))
    (horder : ∀ i, (order i).Perm (ColumnMap E)) :
    (DefaultCLIOptions E).Format.length = 11 ∧
    (∀ fmt ∈ (DefaultCLIOptions E).Format, utf8 "table " <+: fmt) ∧
    (∀ fmt ∈ (DefaultCLIOptions E).Format,
      ∀ tok ∈ strings.Split (fmt.drop 6) (utf8 "\\t"), ∀ i : Nat,
        ∃ k f, (k, f) ∈ ColumnMap E ∧ tok = placeholder k ∧
          getColFun (order i) tok = some f) ∧
    (DefaultCLIOptions E).Format.map
        (fun fmt => (parseTableDef order fmt).toOption.map List.length)
      = [some 10, some 9, some 8, some 7, some 6, some 5, some 4, some 3, some 2, some 1,
         some 1] ∧
    List.Pairwise (fun a b => b ≤ a) [10, 9, 8, 7, 6, 5, 4, 3, 2, 1, 1] := by
  refine ⟨rfl, ?_, ?_, ?_, by decide⟩
  · rw [defaultFormats_eq]
    have h : ∀ fmt ∈ (DefaultCLIOptions sampleExt).Format,
        (utf8 "table ").isPrefixOf fmt = true := by decide
    intro fmt hfmt
    exact List.isPrefixOf_iff_prefix.mp (h fmt hfmt)
  · rw [defaultFormats_eq]
    have h : ∀ fmt ∈ (DefaultCLIOptions sampleExt).Format,
        ∀ tok ∈ strings.Split (fmt.drop 6) (utf8 "\\t"),
          tok ∈ ((ColumnMap sampleExt).map Prod.fst).map placeholder := by decide
    intro fmt hfmt tok htok i
    have hk := h fmt hfmt tok htok
    rw [columnMap_keys, ← columnMap_keys E] at hk
    obtain ⟨k, hkmem, hkeq⟩ := List.mem_map.mp hk
    obtain ⟨⟨k2, f⟩, hmem, hfst⟩ := List.mem_map.mp hkmem
    simp only at hfst
    subst hfst
    refine ⟨k2, f, hmem, hkeq.symm, ?_⟩
    rw [← hkeq]
    exact getColFun_of_mem (perm_keys_nodup (horder i)) ((horder i).mem_iff.mpr hmem)
  · rw [defaultFormats_eq]
    simp only [parseTableDef_column_count]
    exact defaultFormats_token_counts

/-- Witness of C18: every lookup visits the registry in reverse source order. -/
theorem default_formats_well_formed_witness :
    (∀ i : Nat, ((fun _ => (ColumnMap sampleExt).reverse) i).Perm (ColumnMap sampleExt)) ∧
    (DefaultCLIOptions sampleExt).Format.map
        (fun fmt => (parseTableDef (fun _ => (ColumnMap sampleExt).reverse) fmt).toOption.map
          List.length)
      = [some 10, some 9, some 8, some 7, some 6, some 5, some 4, some 3, some 2, some 1,
         some 1] :=
  ⟨fun _ => List.reverse_perm _,
    (default_formats_well_formed sampleExt (fun _ => (ColumnMap sampleExt).reverse)
      (fun _ => List.reverse_perm _)).2.2.2.1⟩

/-! ## The ShortCommand column, as the code computes it -/

theorem takeWhile_not_space_or_next (c : GoString) :
    c = c.takeWhile (fun b => b != 32) ∨ (c.takeWhile (fun b => b != 32) ++ [32]) <+: c := by
  induction c with
  | nil => exact Or.inl rfl
  | cons b rest ih =>
    by_cases hb : b = 32
    · subst hb
      right
      simp [List.takeWhile]
    · have hbt : (b != 32) = true := by simp [hb]
      simp only [List.takeWhile, hbt]
      rcases ih with h | h
      · left
        rw [← h]
      · right
        rw [List.cons_append]
        exact (List.prefix_cons_inj b).mpr h

theorem spaceless_prefix_length_le (c p : GoString) (hp : p <+: c) (hns : (32 : UInt8) ∉ p) :
    p.length ≤ (c.takeWhile (fun b => b != 32)).length := by
  induction c generalizing p with
  | nil =>
    have : p = [] := List.prefix_nil.mp hp
    subst this
    simp
  | cons b rest ih =>
    cases p with
    | nil => simp
    | cons a p2 =>
      obtain ⟨hab, hp2⟩ := List.cons_prefix_cons.mp hp
      subst hab
      have ha : a ≠ 32 := fun h => hns (by rw [h]; exact List.mem_cons_self _ _)
      have hat : (a != 32) = true := by simp [ha]
      have hns2 : (32 : UInt8) ∉ p2 := fun h => hns (List.mem_cons_of_mem _ h)
      simp only [List.takeWhile, hat, List.length_cons]
      exact Nat.succ_le_succ (ih p2 hp2 hns2)

/-- C19: for every command line `c` the single cell returned by `ColShortCommand` is the
longest prefix of `c` that holds no space byte (U+0020): it is a prefix of `c`, holds no
space, and no prefix of `c` without a space is longer; `c` is the cell itself or begins
with the cell followed by a space; and `strings.Split` on a single space yields at least
one piece, so the branch `len(spl) == 0` is never taken. -/
theorem ColShortCommand_longest_spaceless (E : Ext) (ctx : PSContext)
    (cont : ContainerSchema) :
    ∃ cell : GoString, ColShortCommand E ctx (some cont) = .ok [cell] ∧
      cell <+: cont.Command ∧
      (32 : UInt8) ∉ cell ∧
      (∀ p : GoString, p <+: cont.Command → (32 : UInt8) ∉ p → p.length ≤ cell.length) ∧
      (cont.Command = cell ∨ (cell ++ utf8 " ") <+: cont.Command) ∧
      (strings.Split cont.Command (utf8 " ")).length ≠ 0 := by
  have hsp : utf8 " " = [32] := by decide
  obtain ⟨tail, ht⟩ := split_space_head cont.Command
  refine ⟨cont.Command.takeWhile (fun b => b != 32), ?_, List.takeWhile_prefix _, ?_, ?_, ?_, ?_⟩
  · unfold ColShortCommand
    simp only [ht, List.length_cons, Nat.add_one_ne_zero, if_false, index,
      List.getElem?_cons_zero]
    rfl
  · intro hmem
    have := List.mem_takeWhile_imp hmem
    simp at this
  · intro p hp hns
    exact spaceless_prefix_length_le cont.Command p hp hns
  · rw [hsp]
    exact takeWhile_not_space_or_next cont.Command
  · intro h
    exact split_ne_nil _ _ (List.length_eq_zero.mp h)

/-! ## Alignment of the port cells -/

theorem utf8EncodeChar_digitChar_length (d : Nat) :
    (String.utf8EncodeChar (Nat.digitChar d)).length = 1 := by
  by_cases h : d < 16
  · interval_cases d <;> decide
  · have hstar : Nat.digitChar d = Char.ofNat 42 := by
      unfold Nat.digitChar
      rw [if_neg (show ¬ d = 0 by omega), if_neg (show ¬ d = 1 by omega),
        if_neg (show ¬ d = 2 by omega), if_neg (show ¬ d = 3 by omega),
        if_neg (show ¬ d = 4 by omega), if_neg (show ¬ d = 5 by omega),
        if_neg (show ¬ d = 6 by omega), if_neg (show ¬ d = 7 by omega),
        if_neg (show ¬ d = 8 by omega), if_neg (show ¬ d = 9 by omega),
        if_neg (show ¬ d = 10 by omega), if_neg (show ¬ d = 11 by omega),
        if_neg (show ¬ d = 12 by omega), if_neg (show ¬ d = 13 by omega),
        if_neg (show ¬ d = 14 by omega), if_neg (show ¬ d = 15 by omega)]
    rw [hstar]
    decide

theorem toDigitsCore_single_byte (f : Nat) :
    ∀ (n : Nat) (ds : List Char), (∀ c ∈ ds, (String.utf8EncodeChar c).length = 1) →
      ∀ c ∈ Nat.toDigitsCore 10 f n ds, (String.utf8EncodeChar c).length = 1 := by
  induction f with
  | zero =>
    intro n ds hds c hc
    exact hds c (by simpa [Nat.toDigitsCore] using hc)
  | succ f ih =>
    intro n ds hds c hc
    have hds2 : ∀ c ∈ Nat.digitChar (n % 10) :: ds, (String.utf8EncodeChar c).length = 1 := by
      intro c hc
      rcases List.mem_cons.mp hc with h | h
      · rw [h]
        exact utf8EncodeChar_digitChar_length _
      · exact hds c h
    unfold Nat.toDigitsCore at hc
    by_cases hz : n / 10 = 0
    · simp only [hz, if_true] at hc
      exact hds2 c hc
    · simp only [hz, if_false] at hc
      exact ih (n / 10) _ hds2 c hc

theorem flatMap_utf8_length (l : List Char)
    (h : ∀ c ∈ l, (String.utf8EncodeChar c).length = 1) :
    (l.flatMap String.utf8EncodeChar).length = l.length := by
  induction l with
  | nil => rfl
  | cons c rest ih =>
    rw [List.flatMap_cons, List.length_append, h c (List.mem_cons_self _ _),
      ih (fun x hx => h x (List.mem_cons_of_mem _ hx)), List.length_cons, Nat.add_comm]

theorem Itoa_length_le_five (n : Int) (h0 : 0 ≤ n) (h1 : n ≤ 99999) :
    (strconv.Itoa n).length ≤ 5 := by
  obtain ⟨m, hm⟩ := Int.eq_ofNat_of_zero_le h0
  subst hm
  have hm5 : m < 10 ^ 5 := by omega
  show ((Nat.repr m).data.flatMap String.utf8EncodeChar).length ≤ 5
  have hsingle : ∀ c ∈ (Nat.repr m).data, (String.utf8EncodeChar c).length = 1 :=
    toDigitsCore_single_byte (m + 1) m [] (by simp)
  rw [flatMap_utf8_length _ hsingle]
  exact Nat.repr_length m 5 (by decide) hm5

theorem pad5_length (E : Ext)
    (hpad : ∀ s : GoString, E.StrPadLeft s (utf8 " ") 5 = List.replicate (5 - s.length) 32 ++ s)
    (n : Int) (h0 : 0 ≤ n) (h1 : n ≤ 99999) : (pad5 E n).length = 5 := by
  have := Itoa_length_le_five n h0 h1
  unfold pad5
  rw [hpad, List.length_append, List.length_replicate]
  omega

/-- C20: bound and unbound port cells line up. Taking the padding helper to pad on the
left with spaces up to width 5, for every port mapping whose public and private ports
lie in 0..99999 the cell entered by the loop of `ColPorts` has length 17 plus the length
of the type, whether a public port is bound or not, and the cell of an unbound mapping
is the cell of any bound mapping with the same private port and type with its first 9
bytes replaced by blanks. -/
theorem port_cells_line_up (E : Ext)
    (hpad : ∀ s : GoString, E.StrPadLeft s (utf8 " ") 5 = List.replicate (5 - s.length) 32 ++ s)
    (pub priv : Int) (typ : GoString)
    (hpub : 0 < pub ∧ pub ≤ 99999) (hpriv : 0 ≤ priv ∧ priv ≤ 99999) :
    ColPorts.step E [] { PublicPort := pub, PrivatePort := priv, Typ := typ }
      = [(renderPort E { PublicPort := pub, PrivatePort := priv, Typ := typ }, true)] ∧
    ColPorts.step E [] { PublicPort := 0, PrivatePort := priv, Typ := typ }
      = [(renderPort E { PublicPort := 0, PrivatePort := priv, Typ := typ }, true)] ∧
    (renderPort E { PublicPort := pub, PrivatePort := priv, Typ := typ }).length
      = 17 + typ.length ∧
    (renderPort E { PublicPort := 0, PrivatePort := priv, Typ := typ }).length
      = 17 + typ.length ∧
    renderPort E { PublicPort := 0, PrivatePort := priv, Typ := typ }
      = List.replicate 9 32 ++
        (renderPort E { PublicPort := pub, PrivatePort := priv, Typ := typ }).drop 9 := by
  have hp1 := pad5_length E hpad pub (by omega) hpub.2
  have hp2 := pad5_length E hpad priv hpriv.1 hpriv.2
  have harrow : (utf8 " -> ").length = 4 := by decide
  have hslash : (utf8 " / ").length = 3 := by decide
  have hne : pub ≠ 0 := by omega
  have hbound : renderPort E { PublicPort := pub, PrivatePort := priv, Typ := typ }
      = (pad5 E pub ++ utf8 " -> ") ++ (pad5 E priv ++ utf8 " / " ++ typ) := by
    simp [renderPort, hne]
  have hunbound : renderPort E { PublicPort := 0, PrivatePort := priv, Typ := typ }
      = List.replicate 9 32 ++ (pad5 E priv ++ utf8 " / " ++ typ) := by
    simp [renderPort]
  refine ⟨?_, ?_, ?_, ?_, ?_⟩
  · rw [ColPorts_step_eq]
    rfl
  · rw [ColPorts_step_eq]
    rfl
  · rw [hbound]
    simp only [List.length_append, hp1, hp2, harrow, hslash]
    omega
  · rw [hunbound]
    simp only [List.length_append, List.length_replicate, hp2, hslash]
    omega
  · rw [hunbound, hbound, List.drop_left' (by rw [List.length_append, hp1, harrow])]

/-- Witness of C20: the mapping of public port 8080 to private port 80, type `tcp`, with
the left-padding helper. -/
theorem port_cells_line_up_witness :
    (∀ s : GoString,
      sampleExt.StrPadLeft s (utf8 " ") 5 = List.replicate (5 - s.length) 32 ++ s) ∧
    ((0 : Int) < 8080 ∧ (8080 : Int) ≤ 99999) ∧ ((0 : Int) ≤ 80 ∧ (80 : Int) ≤ 99999) ∧
    (ColPorts.step sampleExt [] { PublicPort := 8080, PrivatePort := 80, Typ := utf8 "tcp" }
      = [(renderPort sampleExt { PublicPort := 8080, PrivatePort := 80, Typ := utf8 "tcp" },
          true)] ∧
    ColPorts.step sampleExt [] { PublicPort := 0, PrivatePort := 80, Typ := utf8 "tcp" }
      = [(renderPort sampleExt { PublicPort := 0, PrivatePort := 80, Typ := utf8 "tcp" },
          true)] ∧
    (renderPort sampleExt { PublicPort := 8080, PrivatePort := 80, Typ := utf8 "tcp" }).length
      = 17 + (utf8 "tcp").length ∧
    (renderPort sampleExt { PublicPort := 0, PrivatePort := 80, Typ := utf8 "tcp" }).length
      = 17 + (utf8 "tcp").length ∧
    renderPort sampleExt { PublicPort := 0, PrivatePort := 80, Typ := utf8 "tcp" }
      = List.replicate 9 32 ++
        (renderPort sampleExt
          { PublicPort := 8080, PrivatePort := 80, Typ := utf8 "tcp" }).drop 9) :=
  ⟨StrPadLeft_five, by decide, by decide,
    port_cells_line_up sampleExt StrPadLeft_five 8080 80 (utf8 "tcp") (by decide) (by decide)⟩

end Dops
